import Mathlib

/-!
Verification of the core of the `keml-vscode` extension: the attribute
tokenizer (`src/parseTokens.ts`), the attribute-name classifiers
(`src/extension.ts`), the per-document symbol tables (`src/addRange.ts`,
`src/addCompletions.ts`), the document parser (`src/parseHTMLDocument.ts`),
the cross-document resolver (`src/addReferenceDiagnostics.ts`,
`addPartialReferenceDiagnostics`), and the workspace table operations
(`src/setDocs.ts`, `onDidRename`).

Embedding conventions:
* JavaScript strings are modelled as `List Char` (`Str`); all characters
  relevant to the verified properties are in the basic plane, where one
  UTF-16 code unit corresponds to one `Char`.
* `Map` objects are modelled as association lists in insertion order,
  which is exactly the iteration order of a JavaScript `Map`.
* Functions that mutate an array or map in place are modelled as functions
  returning the updated value.
* The regular expression `INVALID_PATTERN = /[()\[\]<>{}]/g` carries the
  `g` flag, so it has a mutable `lastIndex` property.  Per ECMA-262,
  `regexp.test(s)` starts searching at `lastIndex`, sets `lastIndex` to
  the end of the match on success and resets it to `0` on failure;
  `s.matchAll(regexp)` copies `lastIndex` into its internal matcher
  without modifying the original.  This mutable index is modelled by
  threading an explicit `lastIndex : Nat` value.
-/

set_option autoImplicit false

/-- JavaScript strings, one entry per UTF-16 code unit. -/
abbrev Str := List Char

/-- A character matched by `INVALID_PATTERN` (`/[()\[\]<>{}]/g` in
`src/parseTokens.ts`): parentheses, brackets, angle brackets, braces. -/
def bracketChar (c : Char) : Bool :=
  c = '(' || c = ')' || c = '[' || c = ']' || c = '<' || c = '>' ||
    c = '\x7b' || c = '\x7d'

/-- Indices of all `INVALID_PATTERN` characters of `s`, in increasing
order, with `i` the index of the first listed character. -/
def bracketIndicesAux : Str → Nat → List Nat
  | [], _ => []
  | c :: rest, i =>
      if bracketChar c then i :: bracketIndicesAux rest (i + 1)
      else bracketIndicesAux rest (i + 1)

/-- `Array.from(input.matchAll(INVALID_PATTERN))`, keeping only the match
indices.  The matcher created by `matchAll` inherits the regex's current
`lastIndex`, so only matches at index `≥ lastIndex` are produced; the
original regex's `lastIndex` is left unchanged. -/
def matchIndicesFrom (lastIndex : Nat) (s : Str) : List Nat :=
  (bracketIndicesAux s 0).filter (fun j => decide (lastIndex ≤ j))

/-- `input.lastIndexOf(" ", k)`: the largest index `j ≤ k` with
`input[j] = ' '`, or `-1` if there is none. -/
def lastIndexOfSpace (s : Str) (k : Nat) : Int :=
  match (List.range (k + 1)).reverse.find? (fun j => decide (s[j]? = some ' ')) with
  | some j => (j : Int)
  | none => -1

/-- `input.indexOf(" ", k)`: the smallest index `j ≥ k` with
`input[j] = ' '`, or `-1` if there is none. -/
def indexOfSpaceFrom (s : Str) (k : Nat) : Int :=
  match (List.range s.length).find?
      (fun j => decide (k ≤ j) && decide (s[j]? = some ' ')) with
  | some j => (j : Int)
  | none => -1

/-- The `for` loop of `parseTokens` (`src/parseTokens.ts`, lines 61-81),
including the final flush after the loop.  `s` is the full input,
`rest` is `s.drop i`, `i` is the loop counter and `delta` is
`characterDelta` (with `none` standing for the sentinel `-1`).
Emitted tokens are `input.slice(characterDelta, i)`. -/
def ptLoop (s : Str) (lb rb : Int) : Str → Nat → Option Nat → List (Str × Nat)
  | [], i, delta =>
      match delta with
      | some d => [((s.drop d).take (i - d), d)]
      | none => []
  | c :: rest, i, delta =>
      if lb < (i : Int) ∧ (i : Int) < rb then
        ptLoop s lb rb rest (i + 1) none
      else if c = ' ' then
        match delta with
        | some d => ((s.drop d).take (i - d), d) :: ptLoop s lb rb rest (i + 1) none
        | none => ptLoop s lb rb rest (i + 1) none
      else
        match delta with
        | none => ptLoop s lb rb rest (i + 1) (some i)
        | some _ => ptLoop s lb rb rest (i + 1) delta

/-- The `leftBoundary`/`rightBoundary` computation of `parseTokens`
(`src/parseTokens.ts`, lines 50-59): initialized to `(len, -1)`; if the
input has at least one `INVALID_PATTERN` match, the left boundary is
`input.lastIndexOf(" ", firstMatch.index)` and the right boundary is
`input.indexOf(" ", lastMatch.index)`, replaced by `len` when `-1`. -/
def tokenBoundaries (lastIndex : Nat) (s : Str) : Int × Int :=
  match matchIndicesFrom lastIndex s with
  | [] => ((s.length : Int), -1)
  | f :: ms =>
      let lb := lastIndexOfSpace s f
      let rb0 := indexOfSpaceFrom s (List.getLastD (f :: ms) f)
      (lb, if rb0 = -1 then (s.length : Int) else rb0)

/-- `parseTokens` (`src/parseTokens.ts`).  The extra `lastIndex` argument
is the ambient `INVALID_PATTERN.lastIndex` at call time (see the header
comment); the pure tokenizer contract of the spec corresponds to
`parseTokens 0`.  Each returned pair is `(token, characterDelta)`. -/
def parseTokens (lastIndex : Nat) (input : Str) : List (Str × Nat) :=
  ptLoop input (tokenBoundaries lastIndex input).1 (tokenBoundaries lastIndex input).2
    input 0 none

/-! Specification-side definitions used to characterize the tokenizer.
`predTokensAux` is a straightforward splitter over an index-dependent
separator predicate: it walks the string once, accumulating the current
token (in reverse) together with its start index. -/

/-- Plain splitter on a separator predicate; `pending` holds the start
index and the reversed characters of the token currently being read. -/
def predTokensAux (isSep : Nat → Char → Bool) :
    Str → Nat → Option (Nat × Str) → List (Str × Nat)
  | [], _, none => []
  | [], _, some (d, w) => [(w.reverse, d)]
  | c :: rest, i, none =>
      if isSep i c then predTokensAux isSep rest (i + 1) none
      else predTokensAux isSep rest (i + 1) (some (i, [c]))
  | c :: rest, i, some (d, w) =>
      if isSep i c then (w.reverse, d) :: predTokensAux isSep rest (i + 1) none
      else predTokensAux isSep rest (i + 1) (some (d, c :: w))

/-- Separator predicate for plain splitting on ASCII spaces. -/
def spaceSep : Nat → Char → Bool := fun _ c => decide (c = ' ')

/-- Plain space-splitting with token start offsets. -/
def spaceTokens (s : Str) : List (Str × Nat) :=
  predTokensAux spaceSep s 0 none

/-- Separator predicate expressing claim C1's reading of the tokenizer:
a separator is an ASCII space that does not lie strictly inside the
protected zone `(lb, rb)`. -/
def zoneSep (lb rb : Int) : Nat → Char → Bool := fun i c =>
  decide (c = ' ') && !(decide (lb < (i : Int)) && decide ((i : Int) < rb))

/-- Splitting on spaces outside the protected zone, as claim C1 reads the
tokenizer: runs of non-separator characters become single tokens. -/
def claimTokens (lb rb : Int) (s : Str) : List (Str × Nat) :=
  predTokensAux (zoneSep lb rb) s 0 none

/-- Replace every character strictly inside `(lb, rb)` by a space,
starting the position count at `i`. -/
def maskFrom (lb rb : Int) : Nat → Str → Str
  | _, [] => []
  | i, c :: rest =>
      (if lb < (i : Int) ∧ (i : Int) < rb then ' ' else c) ::
        maskFrom lb rb (i + 1) rest

/-- Replace every character strictly inside `(lb, rb)` by a space. -/
def maskZone (lb rb : Int) (s : Str) : Str := maskFrom lb rb 0 s

/-- Join a list of tokens with single spaces. -/
def joinSp : List Str → Str
  | [] => []
  | [w] => w
  | w :: ws => w ++ ' ' :: joinSp ws

/-- Collapse every run of spaces to a single space and remove a trailing
run entirely (a leading run is kept, collapsed to one space). -/
def crTrimR : Str → Str
  | [] => []
  | c :: rest =>
      if c = ' ' then
        match crTrimR (rest.dropWhile (fun x => decide (x = ' '))) with
        | [] => []
        | t => ' ' :: t
      else c :: crTrimR rest
termination_by s => s.length
decreasing_by
  · have h := (List.dropWhile_suffix (l := rest) (fun x => decide (x = ' '))).sublist.length_le
    simp only [List.length_cons]
    omega
  · simp only [List.length_cons]
    omega

/-- The input with leading and trailing spaces removed and every internal
run of spaces collapsed to one space. -/
def normSpace (s : Str) : Str :=
  crTrimR (s.dropWhile (fun c => decide (c = ' ')))

example : parseTokens 0 "foo bar(baz) qux".toList =
    [("foo".toList, 0), ("qux".toList, 13)] := by decide

example : parseTokens 0 "a b c".toList =
    [("a".toList, 0), ("b".toList, 2), ("c".toList, 4)] := by decide

example : parseTokens 0 "(a".toList = [] := by decide

example : claimTokens (tokenBoundaries 0 "a (b c) d".toList).1
    (tokenBoundaries 0 "a (b c) d".toList).2 "a (b c) d".toList =
    [("a".toList, 0), ("(b c)".toList, 2), ("d".toList, 8)] := by decide

example : normSpace "  a  b ".toList = "a b".toList := by
  simp [normSpace, crTrimR]

/-! Auxiliary facts about `List.drop` used when walking the input with an
explicit index. -/

theorem drop_cons_succ {s rest : Str} {c : Char} {i : Nat}
    (h : s.drop i = c :: rest) : s.drop (i + 1) = rest := by
  have h2 : s.drop (i + 1) = (s.drop i).drop 1 := by
    rw [List.drop_drop]
  rw [h2, h]
  rfl

theorem getElem?_of_drop_cons {s rest : Str} {c : Char} {i : Nat}
    (h : s.drop i = c :: rest) : s[i]? = some c := by
  have h2 := List.getElem?_drop s i 0
  rw [h] at h2
  simpa using h2.symm

theorem drop_ne_nil_lt_length {s rest : Str} {c : Char} {i : Nat}
    (h : s.drop i = c :: rest) : i < s.length := by
  by_contra hle
  rw [List.drop_eq_nil_iff.mpr (by omega)] at h
  exact List.noConfusion h

/-- Core correspondence: the `parseTokens` loop over input `s` with
protected zone `(lb, rb)` behaves exactly like plain space-splitting of
the input with the zone's interior blanked out, provided pending tokens
never reach into the zone and the character at a non-negative left
boundary is a space.  `delta` corresponds to the pending state of the
plain splitter via slicing from the original string. -/
theorem ptLoop_eq_predTokensAux (s : Str) (lb rb : Int)
    (hlb : ∀ j : Nat, (j : Int) = lb → ((j : Int) + 1) < rb → s[j]? = some ' ') :
    ∀ rest i delta, rest = s.drop i →
      ((lb < (i : Int) ∧ (i : Int) < rb) → delta = none) →
      (∀ d, delta = some d →
        d ≤ i ∧ ∀ j : Nat, d ≤ j → j < i → ¬(lb < (j : Int) ∧ (j : Int) < rb)) →
      ptLoop s lb rb rest i delta
        = predTokensAux spaceSep (maskFrom lb rb i rest) i
            (delta.map fun d => (d, ((s.drop d).take (i - d)).reverse)) := by
  intro rest
  induction rest with
  | nil =>
      intro i delta _ _ _
      cases delta with
      | none => simp [ptLoop, maskFrom, predTokensAux]
      | some d => simp [ptLoop, maskFrom, predTokensAux]
  | cons c rest' ih =>
      intro i delta hrest hzone hpend
      have hdrop : s.drop i = c :: rest' := hrest.symm
      have hrest' : rest' = s.drop (i + 1) := (drop_cons_succ hdrop).symm
      have hci : s[i]? = some c := getElem?_of_drop_cons hdrop
      by_cases hz : lb < (i : Int) ∧ (i : Int) < rb
      · have hd : delta = none := hzone hz
        subst hd
        simp only [ptLoop, if_pos hz, maskFrom, Option.map_none']
        have hsep : spaceSep i ' ' = true := by simp [spaceSep]
        simp only [predTokensAux, hsep, if_pos]
        exact ih (i + 1) none hrest' (fun _ => rfl) (fun d hd => by cases hd)
      · have hnz : ¬(lb < (i : Int) ∧ (i : Int) < rb) := hz
        simp only [ptLoop, if_neg hnz, maskFrom, if_neg hnz]
        by_cases hc : c = ' '
        · subst hc
          have hsep : spaceSep i ' ' = true := by simp [spaceSep]
          cases delta with
          | none =>
              simp only [if_pos rfl, Option.map_none', predTokensAux, hsep, if_pos]
              exact ih (i + 1) none hrest' (fun _ => rfl) (fun d hd => by cases hd)
          | some d =>
              simp only [if_pos rfl, Option.map_some', predTokensAux, hsep, if_pos,
                List.reverse_reverse]
              have htail := ih (i + 1) none hrest' (fun _ => rfl) (fun d hd => by cases hd)
              rw [htail]
              rfl
        · have hsep : spaceSep i c = false := by simp [spaceSep, hc]
          have hzone' : (lb < ((i : Nat) + 1 : Int) ∧ (((i : Nat) + 1 : Int)) < rb) → False := by
            rintro ⟨h1, h2⟩
            have hlei : (i : Int) ≤ lb := by
              by_contra hgt
              exact hnz ⟨by omega, by omega⟩
            have heq : (i : Int) = lb := by omega
            have := hlb i heq (by omega)
            rw [hci] at this
            exact hc (by injection this)
          cases delta with
          | none =>
              simp only [if_neg hc, Option.map_none', predTokensAux, hsep,
                Bool.false_eq_true, if_neg, not_false_iff]
              have hnext := ih (i + 1) (some i) hrest'
                (fun hzz => absurd hzz (by push_cast; exact fun h => hzone' (by omega)))
                (fun d hd => by
                  cases hd
                  refine ⟨by omega, fun j hj1 hj2 => ?_⟩
                  have : j = i := by omega
                  subst this
                  exact hnz)
              rw [hnext]
              have hslice : ((s.drop i).take (i + 1 - i)).reverse = [c] := by
                have : i + 1 - i = 1 := by omega
                rw [this, hdrop]
                rfl
              rw [Option.map_some', hslice]
          | some d =>
              obtain ⟨hdi, hout⟩ := hpend d rfl
              simp only [if_neg hc, Option.map_some', predTokensAux, hsep,
                Bool.false_eq_true, if_neg, not_false_iff]
              have hnext := ih (i + 1) (some d) hrest'
                (fun hzz => absurd hzz (by push_cast; exact fun h => hzone' (by omega)))
                (fun d' hd' => by
                  cases hd'
                  refine ⟨by omega, fun j hj1 hj2 => ?_⟩
                  by_cases hji : j < i
                  · exact hout j hj1 hji
                  · have : j = i := by omega
                    subst this
                    exact hnz)
              rw [hnext]
              have hslice : (s.drop d).take (i + 1 - d) = (s.drop d).take (i - d) ++ [c] := by
                have h1 : i + 1 - d = (i - d) + 1 := by omega
                rw [h1, List.take_succ]
                have h2 : (s.drop d)[i - d]? = some c := by
                  rw [List.getElem?_drop]
                  have : d + (i - d) = i := by omega
                  rw [this, hci]
                rw [h2]
                rfl
              rw [Option.map_some', hslice]
              simp

/-- A non-negative result of `lastIndexOfSpace` points at a space. -/
theorem lastIndexOfSpace_spec (s : Str) (k : Nat) :
    ∀ j : Nat, (j : Int) = lastIndexOfSpace s k → s[j]? = some ' ' := by
  intro j hj
  unfold lastIndexOfSpace at hj
  cases hfind : (List.range (k + 1)).reverse.find? (fun j => decide (s[j]? = some ' ')) with
  | some j0 =>
      rw [hfind] at hj
      simp only [] at hj
      have hp := List.find?_some hfind
      have hjj : j = j0 := by omega
      subst hjj
      simpa using hp
  | none =>
      rw [hfind] at hj
      simp only [] at hj
      omega

/-- `parseTokens` equals plain space-splitting of the input with the
protected zone's interior blanked out.  In particular the characters
strictly inside the zone are never emitted in any token. -/
theorem parseTokens_eq_spaceTokens (st : Nat) (s : Str) :
    parseTokens st s
      = spaceTokens (maskZone (tokenBoundaries st s).1 (tokenBoundaries st s).2 s) := by
  have hlb : ∀ j : Nat, (j : Int) = (tokenBoundaries st s).1 →
      ((j : Int) + 1) < (tokenBoundaries st s).2 → s[j]? = some ' ' := by
    unfold tokenBoundaries
    cases h : matchIndicesFrom st s with
    | nil =>
        intro j _ hlt
        simp only at hlt
        omega
    | cons f ms =>
        intro j hj _
        exact lastIndexOfSpace_spec s f j hj
  exact ptLoop_eq_predTokensAux s _ _ hlb s 0 none rfl (fun _ => rfl) (fun d hd => by cases hd)

/-- Every token emitted by the `parseTokens` loop is a non-empty slice of
the input occurring at its recorded start offset. -/
theorem ptLoop_token_shape (s : Str) (lb rb : Int) :
    ∀ rest i delta, rest = s.drop i →
      (∀ d, delta = some d → d < i ∧ d < s.length) →
      ∀ t d', (t, d') ∈ ptLoop s lb rb rest i delta → t ≠ [] ∧ t <+: s.drop d' := by
  intro rest
  induction rest with
  | nil =>
      intro i delta _ hpend t d' hmem
      cases delta with
      | none => simp [ptLoop] at hmem
      | some d =>
          obtain ⟨hdi, hdl⟩ := hpend d rfl
          simp only [ptLoop, List.mem_singleton, Prod.mk.injEq] at hmem
          obtain ⟨ht, hd⟩ := hmem
          subst ht
          subst hd
          constructor
          · rw [Ne, List.take_eq_nil_iff]
            push_neg
            constructor
            · omega
            · rw [Ne, List.drop_eq_nil_iff]
              omega
          · exact List.take_prefix _ _
  | cons c rest' ih =>
      intro i delta hrest hpend t d' hmem
      have hdrop : s.drop i = c :: rest' := hrest.symm
      have hrest' : rest' = s.drop (i + 1) := (drop_cons_succ hdrop).symm
      have hilen : i < s.length := drop_ne_nil_lt_length hdrop
      simp only [ptLoop] at hmem
      by_cases hz : lb < (i : Int) ∧ (i : Int) < rb
      · rw [if_pos hz] at hmem
        exact ih (i + 1) none hrest' (fun d hd => by cases hd) t d' hmem
      · rw [if_neg hz] at hmem
        by_cases hc : c = ' '
        · rw [if_pos hc] at hmem
          cases delta with
          | none =>
              exact ih (i + 1) none hrest' (fun d hd => by cases hd) t d' hmem
          | some d =>
              obtain ⟨hdi, hdl⟩ := hpend d rfl
              rcases List.mem_cons.mp hmem with hhead | htail
              · obtain ⟨ht, hd⟩ := Prod.mk.injEq .. ▸ hhead
                subst ht
                subst hd
                constructor
                · rw [Ne, List.take_eq_nil_iff]
                  push_neg
                  constructor
                  · omega
                  · rw [Ne, List.drop_eq_nil_iff]
                    omega
                · exact List.take_prefix _ _
              · exact ih (i + 1) none hrest' (fun d hd => by cases hd) t d' htail
        · rw [if_neg hc] at hmem
          cases delta with
          | none =>
              exact ih (i + 1) (some i) hrest'
                (fun d hd => by cases hd; exact ⟨by omega, hilen⟩) t d' hmem
          | some d =>
              obtain ⟨hdi, hdl⟩ := hpend d rfl
              exact ih (i + 1) (some d) hrest'
                (fun d'' hd'' => by cases hd''; exact ⟨by omega, hdl⟩) t d' hmem

/-- Every token produced by `parseTokens` is non-empty and occurs in the
input at its recorded start offset. -/
theorem parseTokens_token_shape (st : Nat) (s : Str) :
    ∀ t d, (t, d) ∈ parseTokens st s → t ≠ [] ∧ t <+: s.drop d := by
  intro t d hmem
  exact ptLoop_token_shape s _ _ s 0 none rfl (fun d hd => by cases hd) t d hmem

/-- Tokens produced by the plain splitter are non-empty whenever the
pending token is. -/
theorem predTokensAux_token_ne_nil (isSep : Nat → Char → Bool) :
    ∀ rest i pend, (∀ d w, pend = some (d, w) → w ≠ []) →
      ∀ t d', (t, d') ∈ predTokensAux isSep rest i pend → t ≠ [] := by
  intro rest
  induction rest with
  | nil =>
      intro i pend hpend t d' hmem
      cases pend with
      | none => simp [predTokensAux] at hmem
      | some dw =>
          obtain ⟨d, w⟩ := dw
          have hw := hpend d w rfl
          simp only [predTokensAux, List.mem_singleton, Prod.mk.injEq] at hmem
          obtain ⟨ht, _⟩ := hmem
          subst ht
          simpa using hw
  | cons c rest' ih =>
      intro i pend hpend t d' hmem
      cases pend with
      | none =>
          simp only [predTokensAux] at hmem
          by_cases hs : isSep i c
          · rw [if_pos hs] at hmem
            exact ih (i + 1) none (fun d w hd => by cases hd) t d' hmem
          · rw [if_neg hs] at hmem
            exact ih (i + 1) (some (i, [c]))
              (fun d w hd => by cases hd; simp) t d' hmem
      | some dw =>
          obtain ⟨d, w⟩ := dw
          have hw := hpend d w rfl
          simp only [predTokensAux] at hmem
          by_cases hs : isSep i c
          · rw [if_pos hs] at hmem
            rcases List.mem_cons.mp hmem with hhead | htail
            · obtain ⟨ht, _⟩ := Prod.mk.injEq .. ▸ hhead
              subst ht
              simpa using hw
            · exact ih (i + 1) none (fun d w hd => by cases hd) t d' htail
          · rw [if_neg hs] at hmem
            exact ih (i + 1) (some (d, c :: w))
              (fun d'' w'' hd => by cases hd; simp) t d' hmem

/-- A join starting with a non-empty token is non-empty. -/
theorem joinSp_cons_ne_nil (x : Str) (xs : List Str) (hx : x ≠ []) :
    joinSp (x :: xs) ≠ [] := by
  cases xs with
  | nil => simpa [joinSp] using hx
  | cons y ys =>
      simp only [joinSp, Ne, List.append_eq_nil]
      rintro ⟨h, -⟩
      exact hx h

/-- Rewriting the space-collapsing function on a cons cell whose head is
a space. -/
theorem crTrimR_cons_space (rest : Str) :
    crTrimR (' ' :: rest)
      = match crTrimR (rest.dropWhile (fun x => decide (x = ' '))) with
        | [] => []
        | t => ' ' :: t := by
  rw [crTrimR]
  simp

/-- Rewriting the space-collapsing function on a cons cell whose head is
not a space. -/
theorem crTrimR_cons_nonspace (c : Char) (rest : Str) (hc : c ≠ ' ') :
    crTrimR (c :: rest) = c :: crTrimR rest := by
  rw [crTrimR]
  simp [hc]

/-- Joining the tokens of the plain space splitter with single spaces
collapses space runs: with no pending token the result is the collapsed
remainder without its leading spaces; with a pending token the result is
the pending text followed by the collapsed remainder (whose leading run,
if any, becomes the single separating space). -/
theorem joinSp_predTokensAux (rest : Str) :
    (∀ i, joinSp ((predTokensAux spaceSep rest i none).map Prod.fst)
        = crTrimR (rest.dropWhile (fun x => decide (x = ' '))))
    ∧ (∀ i d w, joinSp ((predTokensAux spaceSep rest i (some (d, w))).map Prod.fst)
        = w.reverse ++ crTrimR rest) := by
  induction rest with
  | nil =>
      constructor
      · intro i
        simp [predTokensAux, joinSp, crTrimR]
      · intro i d w
        simp [predTokensAux, joinSp, crTrimR]
  | cons c rest' ih =>
      constructor
      · intro i
        by_cases hc : c = ' '
        · subst hc
          have hsep : spaceSep i ' ' = true := by simp [spaceSep]
          have hdw : List.dropWhile (fun x => decide (x = ' ')) (' ' :: rest')
              = List.dropWhile (fun x => decide (x = ' ')) rest' := by
            simp [List.dropWhile_cons]
          simp only [predTokensAux, hsep, if_pos, hdw]
          exact ih.1 (i + 1)
        · have hsep : spaceSep i c = false := by simp [spaceSep, hc]
          have hdw : List.dropWhile (fun x => decide (x = ' ')) (c :: rest')
              = c :: rest' := by
            simp [List.dropWhile_cons, hc]
          simp only [predTokensAux, hsep, Bool.false_eq_true, if_neg, not_false_iff, hdw]
          rw [ih.2 (i + 1) i [c], crTrimR_cons_nonspace c rest' hc]
          rfl
      · intro i d w
        by_cases hc : c = ' '
        · subst hc
          have hsep : spaceSep i ' ' = true := by simp [spaceSep]
          simp only [predTokensAux, hsep, if_pos, List.map_cons]
          rw [crTrimR_cons_space rest']
          cases htoks : (predTokensAux spaceSep rest' (i + 1) none).map Prod.fst with
          | nil =>
              have h1 := ih.1 (i + 1)
              rw [htoks] at h1
              simp only [joinSp] at h1
              rw [← h1]
              simp [joinSp]
          | cons t0 ts =>
              have h1 := ih.1 (i + 1)
              rw [htoks] at h1
              have ht0 : t0 ≠ [] := by
                have hmem : t0 ∈ (predTokensAux spaceSep rest' (i + 1) none).map Prod.fst := by
                  rw [htoks]
                  exact List.mem_cons_self _ _
                obtain ⟨⟨t0', d0⟩, hmem', heq⟩ := List.mem_map.mp hmem
                cases heq
                exact predTokensAux_token_ne_nil spaceSep rest' (i + 1) none
                  (fun d w hd => by cases hd) t0' d0 hmem'
              have hne : crTrimR (rest'.dropWhile (fun x => decide (x = ' '))) ≠ [] := by
                rw [← h1]
                exact joinSp_cons_ne_nil t0 ts ht0
              cases hcr : crTrimR (rest'.dropWhile (fun x => decide (x = ' '))) with
              | nil => exact absurd hcr hne
              | cons u us =>
                  rw [hcr] at h1
                  simp only [joinSp, h1]
        · have hsep : spaceSep i c = false := by simp [spaceSep, hc]
          simp only [predTokensAux, hsep, Bool.false_eq_true, if_neg, not_false_iff]
          rw [ih.2 (i + 1) d (c :: w), crTrimR_cons_nonspace c rest' hc]
          simp

/-- A string with no `INVALID_PATTERN` character yields no match indices. -/
theorem bracketIndicesAux_eq_nil (s : Str) (h : ∀ c ∈ s, bracketChar c = false) :
    ∀ i, bracketIndicesAux s i = [] := by
  induction s with
  | nil => intro i; rfl
  | cons c rest ih =>
      intro i
      have hc := h c (List.mem_cons_self _ _)
      simp only [bracketIndicesAux, hc, Bool.false_eq_true, if_neg, not_false_iff]
      exact ih (fun c' hc' => h c' (List.mem_cons_of_mem _ hc')) (i + 1)

/-- No `INVALID_PATTERN` character, no matches, from any `lastIndex`. -/
theorem matchIndicesFrom_eq_nil (st : Nat) (s : Str)
    (h : ∀ c ∈ s, bracketChar c = false) : matchIndicesFrom st s = [] := by
  unfold matchIndicesFrom
  rw [bracketIndicesAux_eq_nil s h 0]
  rfl

/-- Masking with an empty zone is the identity. -/
theorem maskFrom_of_no_zone (lb rb : Int)
    (h : ∀ i : Nat, ¬(lb < (i : Int) ∧ (i : Int) < rb)) :
    ∀ i s', maskFrom lb rb i s' = s' := by
  intro i s'
  induction s' generalizing i with
  | nil => rfl
  | cons c rest ih =>
      simp only [maskFrom, if_neg (h i)]
      rw [ih (i + 1)]

/-- On bracket-free input, `parseTokens` is plain space splitting, for
any ambient `lastIndex`. -/
theorem parseTokens_of_no_bracket (st : Nat) (s : Str)
    (h : ∀ c ∈ s, bracketChar c = false) :
    parseTokens st s = spaceTokens s := by
  have hb := tokenBoundaries st s
  have hmatch : matchIndicesFrom st s = [] := matchIndicesFrom_eq_nil st s h
  have hbound : tokenBoundaries st s = ((s.length : Int), -1) := by
    unfold tokenBoundaries
    rw [hmatch]
  rw [parseTokens_eq_spaceTokens st s, hbound]
  unfold maskZone
  rw [maskFrom_of_no_zone _ _ (fun i => by rintro ⟨-, h2⟩; omega) 0 s]

/-- The collapsed form of an all-space string is empty. -/
theorem normSpace_all_space (s : Str) (h : ∀ c ∈ s, c = ' ') :
    normSpace s = [] := by
  unfold normSpace
  have hdw : s.dropWhile (fun c => decide (c = ' ')) = [] := by
    rw [List.dropWhile_eq_nil_iff]
    intro c hc
    simp [h c hc]
  rw [hdw]
  simp [crTrimR]

/-- On an all-space (in particular, empty) string the tokenizer produces
no tokens. -/
theorem parseTokens_all_space (s : Str) (h : ∀ c ∈ s, c = ' ') :
    parseTokens 0 s = [] := by
  have hb : ∀ c ∈ s, bracketChar c = false := by
    intro c hc
    rw [h c hc]
    rfl
  rw [parseTokens_of_no_bracket 0 s hb]
  cases htoks : spaceTokens s with
  | nil => rfl
  | cons p ps =>
      exfalso
      have hjoin : joinSp ((spaceTokens s).map Prod.fst) = normSpace s :=
        (joinSp_predTokensAux s).1 0
      rw [htoks, normSpace_all_space s h, List.map_cons] at hjoin
      have hp : p.1 ≠ [] := by
        obtain ⟨t, d⟩ := p
        have hmem : (t, d) ∈ spaceTokens s := by rw [htoks]; exact List.mem_cons_self _ _
        exact predTokensAux_token_ne_nil spaceSep s 0 none
          (fun d w hd => by cases hd) t d hmem
      exact joinSp_cons_ne_nil p.1 (ps.map Prod.fst) hp hjoin

/-! The attribute-name classifiers (`src/extension.ts`, the named module
files `isEventDefinition` and friends).  `str.startsWith(p)` is modelled
by `List.isPrefixOf`, `===` comparison by decidable equality. -/

/-- `isEventDefinition`: `name.startsWith("on:") || name.startsWith("x-on:")`. -/
def isEventDefinition (name : Str) : Bool :=
  "on:".toList.isPrefixOf name || "x-on:".toList.isPrefixOf name

/-- `isEventReference`: `on`, `x-on`, `reset` or `x-reset`. -/
def isEventReference (name : Str) : Bool :=
  name = "on".toList || name = "x-on".toList ||
    name = "reset".toList || name = "x-reset".toList

/-- `isEventFilter`: `name.startsWith("event:") || name.startsWith("x-event:")`. -/
def isEventFilter (name : Str) : Bool :=
  "event:".toList.isPrefixOf name || "x-event:".toList.isPrefixOf name

/-- `isStateDefinition`: `name.startsWith("if:") || name.startsWith("x-if:")`. -/
def isStateDefinition (name : Str) : Bool :=
  "if:".toList.isPrefixOf name || "x-if:".toList.isPrefixOf name

/-- `isStateReference`: `if` or `x-if`. -/
def isStateReference (name : Str) : Bool :=
  name = "if".toList || name = "x-if".toList

/-- `isResultDefinition`: `result`, `x-result`, `error` or `x-error`. -/
def isResultDefinition (name : Str) : Bool :=
  name = "result".toList || name = "x-result".toList ||
    name = "error".toList || name = "x-error".toList

/-- `isResultReference`: `render` or `x-render`. -/
def isResultReference (name : Str) : Bool :=
  name = "render".toList || name = "x-render".toList

/-- `isPosition`: `position` or `x-position`. -/
def isPosition (name : Str) : Bool :=
  name = "position".toList || name = "x-position".toList

/-- The `onDependentAttributes` table (`isOnDependent` module). -/
def onDependentAttributes : List Str :=
  ["debounce".toList, "throttle".toList, "credentials".toList, "result".toList,
    "error".toList, "redirect".toList, "once".toList, "if:loading".toList,
    "if:error".toList, "get".toList, "post".toList, "put".toList, "delete".toList]

/-- `isOnDependent`: an `h-` prefix, a listed name, or `x-` plus a listed
name. -/
def isOnDependent (name : Str) : Bool :=
  "h-".toList.isPrefixOf name ||
    onDependentAttributes.contains name ||
    ("x-".toList.isPrefixOf name && onDependentAttributes.contains (name.drop 2))

/-- The `onDependentTags` table (`isTagOnDependent` module). -/
def onDependentTags : List (Str × List Str) :=
  [("href".toList, ["base".toList, "link".toList, "a".toList]),
    ("action".toList, ["form".toList]),
    ("src".toList, ["img".toList, "iframe".toList, "embed".toList, "video".toList,
      "audio".toList, "source".toList, "track".toList, "input".toList, "script".toList]),
    ("method".toList, ["form".toList]),
    ("name".toList, ["meta".toList, "iframe".toList, "object".toList, "param".toList,
      "map".toList, "form".toList, "input".toList, "button".toList, "select".toList,
      "textarea".toList, "output".toList, "fieldset".toList, "slot".toList]),
    ("value".toList, ["li".toList, "param".toList, "input".toList, "button".toList,
      "option".toList, "progress".toList, "meter".toList, "data".toList])]

/-- `Map.get` over an association list. -/
def alistGet {α : Type} (l : List (Str × α)) (k : Str) : Option α :=
  match l.find? (fun p => decide (p.1 = k)) with
  | some p => some p.2
  | none => none

/-- `isTagOnDependent` (`isTagOnDependent` module): globally on-dependent
names, or names with a tag restriction not satisfied by `tag`, with an
`x-` prefixed fallback. -/
def isTagOnDependent (tag name : Str) : Bool :=
  if isOnDependent name then true
  else
    match alistGet onDependentTags name with
    | some tags => !tags.contains tag
    | none =>
        if "x-".toList.isPrefixOf name then
          match alistGet onDependentTags (name.drop 2) with
          | some tags => !tags.contains tag
          | none => false
        else false

/-- Two prefixes of a common list are comparable. -/
theorem prefixComparable {a b c : Str} (h1 : a <+: c) (h2 : b <+: c) :
    a <+: b ∨ b <+: a :=
  List.prefix_or_prefix_of_prefix h1 h2

/-- Two incomparable strings are never prefixes of a common string. -/
theorem not_prefix_of_common {p q n : Str} (h1 : p <+: n) (h2 : q <+: n)
    (hpq : p.isPrefixOf q = false) (hqp : q.isPrefixOf p = false) : False := by
  rcases prefixComparable h1 h2 with h | h
  · rw [← List.isPrefixOf_iff_prefix, hpq] at h
    exact Bool.noConfusion h
  · rw [← List.isPrefixOf_iff_prefix, hqp] at h
    exact Bool.noConfusion h

/-- Unfolding of `isEventDefinition` into prefix propositions. -/
theorem isEventDefinition_iff (n : Str) :
    isEventDefinition n = true ↔ ("on:".toList <+: n ∨ "x-on:".toList <+: n) := by
  simp [isEventDefinition, List.isPrefixOf_iff_prefix]

/-- Unfolding of `isStateDefinition` into prefix propositions. -/
theorem isStateDefinition_iff (n : Str) :
    isStateDefinition n = true ↔ ("if:".toList <+: n ∨ "x-if:".toList <+: n) := by
  simp [isStateDefinition, List.isPrefixOf_iff_prefix]

/-- Unfolding of `isEventReference` into equations. -/
theorem isEventReference_iff (n : Str) :
    isEventReference n = true ↔
      (n = "on".toList ∨ n = "x-on".toList ∨ n = "reset".toList ∨ n = "x-reset".toList) := by
  simp [isEventReference, or_assoc]

/-- Unfolding of `isStateReference` into equations. -/
theorem isStateReference_iff (n : Str) :
    isStateReference n = true ↔ (n = "if".toList ∨ n = "x-if".toList) := by
  simp [isStateReference]

/-- Unfolding of `isResultDefinition` into equations. -/
theorem isResultDefinition_iff (n : Str) :
    isResultDefinition n = true ↔
      (n = "result".toList ∨ n = "x-result".toList ∨ n = "error".toList ∨ n = "x-error".toList) := by
  simp [isResultDefinition, or_assoc]

/-- Unfolding of `isResultReference` into equations. -/
theorem isResultReference_iff (n : Str) :
    isResultReference n = true ↔ (n = "render".toList ∨ n = "x-render".toList) := by
  simp [isResultReference]

/-! The data model shared by parser, resolver and workspace table.
`vscode.Position`/`Range` are (line, character) pairs; `Diagnostic`
messages are modelled as tagged payloads rather than rendered strings
(the `t` template module is plain string glue). -/

/-- A `vscode.Position`: zero-based line and UTF-16 character offset. -/
structure Pos where
  line : Nat
  character : Nat
deriving DecidableEq

/-- A `vscode.Range`; `stop` models the `end` field. -/
structure Rng where
  start : Pos
  stop : Pos
deriving DecidableEq

/-- `vscode.DiagnosticSeverity`. -/
inductive Sev where
  | error
  | warning
  | information
  | hint
deriving DecidableEq

/-- `vscode.DiagnosticTag` (only `Unnecessary` is used by this code). -/
inductive Tag where
  | unnecessary
deriving DecidableEq

/-- Diagnostic message payloads, one constructor per template/literal in
the source (`t.ts` renders these to strings; the rendering is glue). -/
inductive Msg where
  | noAction
  | endSpace
  | invalidPosition
  | depends (name depends article : Str)
  | unused (kind action : Str)
  | undeclared (kind action : Str)
deriving DecidableEq

/-- A `vscode.Diagnostic` as used by this extension. -/
structure Diag where
  range : Rng
  message : Msg
  severity : Sev
  source : Option Str
  tags : Option (List Tag)
deriving DecidableEq

/-- One of the six per-document symbol tables: a `Map<string, Range[]>`
in insertion order. -/
abbrev Table := List (Str × List Rng)

/-- `Map.has` over an association list. -/
def tableHas {α : Type} (l : List (Str × α)) (k : Str) : Bool :=
  (alistGet l k).isSome

/-- Inner update of `addRange` for a non-empty key:
`store.get(key)?.push(range) ?? store.set(key, [range])`.  An existing
entry gets the range appended in place; a missing key is appended at the
end of the map (JavaScript `Map` insertion order). -/
def addRangeGo : Table → Str → Rng → Table
  | [], key, range => [(key, [range])]
  | (k, rs) :: rest, key, range =>
      if k = key then (k, rs ++ [range]) :: rest
      else (k, rs) :: addRangeGo rest key range

/-- `addRange` (`src/addRange.ts`): ignores a falsy (empty) key. -/
def addRange (store : Table) (key : Str) (range : Rng) : Table :=
  if key = [] then store else addRangeGo store key range

/-- `position.translate({characterDelta})`. -/
def translateChar (p : Pos) (delta : Nat) : Pos :=
  { line := p.line, character := p.character + delta }

/-- The range of one token inside a definition attribute's value range:
`range.with({start: range.start.translate({characterDelta}), end:
range.start.translate({characterDelta: characterDelta + token.length})})`. -/
def tokenRange (range : Rng) (delta len : Nat) : Rng :=
  { start := translateChar range.start delta,
    stop := translateChar range.start (delta + len) }

/-- `addDefinitionRanges` (`src/addCompletions.ts` module file): one
`addRange` per token of `parseTokens(value)`.  `lastIndex` is the
ambient `INVALID_PATTERN.lastIndex`. -/
def addDefinitionRanges (lastIndex : Nat) (store : Table) (value : Str) (range : Rng) :
    Table :=
  (parseTokens lastIndex value).foldl
    (fun st td => addRange st td.1 (tokenRange range td.2 td.1.length)) store

/-- The identity and content of a `TextDocument`: `uri` is the value of
`uri.toString()`, `path` the value of `uri.path`. -/
structure TextDoc where
  uri : Str
  path : Str
  version : Nat
  languageId : Str
  text : Str
deriving DecidableEq

/-- An attribute record yielded by the extractor `parseNodeAttrs`:
name, quote-stripped value, value range and full attribute range.  The
extractor itself drives the external HTML scanner, so its output is taken
as given per element. -/
structure AttrRec where
  name : Str
  value : Str
  range : Rng
  fullRange : Rng
deriving DecidableEq

/-- An element node of the external HTML parser's tree: tag, attribute
records (as extracted by `parseNodeAttrs`; the node's `attributes` map
has the same keys) and child elements. -/
inductive Node where
  | mk (tag : Str) (attrs : List AttrRec) (children : List Node)

/-- Tag accessor. -/
def Node.tag : Node → Str
  | .mk t _ _ => t

/-- Attribute-record accessor. -/
def Node.attrs : Node → List AttrRec
  | .mk _ a _ => a

/-- Children accessor. -/
def Node.children : Node → List Node
  | .mk _ _ c => c

/-- A `ParsedDocument` (`global.d.ts`): document identity, HTML roots,
six symbol tables and the cached local diagnostics. -/
structure ParsedDocument where
  doc : TextDoc
  textDoc : TextDoc
  htmlRoots : List Node
  event_definitions : Table
  event_references : Table
  state_definitions : Table
  state_references : Table
  result_definitions : Table
  result_references : Table
  diagnostics : List Diag

/-- Accessor `getEventDefinitions`. -/
def getEventDefinitions (cur : ParsedDocument) : Table := cur.event_definitions

/-- Accessor `getEventReferences`. -/
def getEventReferences (cur : ParsedDocument) : Table := cur.event_references

/-- Accessor `getStateDefinitions`. -/
def getStateDefinitions (cur : ParsedDocument) : Table := cur.state_definitions

/-- Accessor `getStateReferences`. -/
def getStateReferences (cur : ParsedDocument) : Table := cur.state_references

/-- Accessor `getResultDefinitions`. -/
def getResultDefinitions (cur : ParsedDocument) : Table := cur.result_definitions

/-- Accessor `getResultReferences`. -/
def getResultReferences (cur : ParsedDocument) : Table := cur.result_references

/-! The cross-document resolver
(`addPartialReferenceDiagnostics` module and `addReferenceDiagnostics`
in `src/addRange.ts`).  The global `docs` map's values are passed
explicitly as `docsList`; arrays mutated by `push` become accumulator
arguments. -/

/-- The inner `for (ref of docs.values())` search with early `break`:
true as soon as some tracked document's `right` table has `action`. -/
def refSearch (docsList : List ParsedDocument) (right : ParsedDocument → Table)
    (action : Str) : Bool :=
  match docsList with
  | [] => false
  | ref :: rest =>
      if tableHas (right ref) action then true else refSearch rest right action

/-- The body of the outer loop of `addPartialReferenceDiagnostics` for
one `[action, ranges]` entry: if no tracked document's `right` table has
the action, one diagnostic per range, with source `"KEML"` and the given
severity and tags. -/
def entryDiagnostics (docsList : List ParsedDocument) (right : ParsedDocument → Table)
    (tpl : Str → Msg) (severity : Sev) (tags : Option (List Tag))
    (action : Str) (ranges : List Rng) : List Diag :=
  if refSearch docsList right action then []
  else ranges.map (fun range =>
    { range := range, message := tpl action, severity := severity,
      source := some "KEML".toList, tags := tags })

/-- The outer loop of `addPartialReferenceDiagnostics` over the entries
of `left(cur)`, pushing onto the `diagnostics` accumulator. -/
def appLoop (docsList : List ParsedDocument) (right : ParsedDocument → Table)
    (tpl : Str → Msg) (severity : Sev) (tags : Option (List Tag)) :
    List (Str × List Rng) → List Diag → List Diag
  | [], acc => acc
  | e :: rest, acc =>
      appLoop docsList right tpl severity tags rest
        (acc ++ entryDiagnostics docsList right tpl severity tags e.1 e.2)

/-- `addPartialReferenceDiagnostics`: for every action of `left(cur)`
not present in any tracked document's `right` table, append one
diagnostic per stored range. -/
def addPartialReferenceDiagnostics (diagnostics : List Diag)
    (docsList : List ParsedDocument) (cur : ParsedDocument)
    (left right : ParsedDocument → Table) (tpl : Str → Msg)
    (severity : Sev) (tags : Option (List Tag)) : List Diag :=
  appLoop docsList right tpl severity tags (left cur) diagnostics

/-- The unused half of `addReferenceDiagnostics`: skipped entirely when
the configured severity is `null` (the "disabled" setting); otherwise
tagged `Unnecessary` exactly when the severity is the warning level. -/
def unusedPass (diagnostics : List Diag) (docsList : List ParsedDocument)
    (cur : ParsedDocument) (definitionResolver referenceResolver : ParsedDocument → Table)
    (kind : Str) (actionUnusedSeverity : Option Sev) : List Diag :=
  match actionUnusedSeverity with
  | none => diagnostics
  | some s =>
      addPartialReferenceDiagnostics diagnostics docsList cur
        definitionResolver referenceResolver (Msg.unused kind) s
        (if s = Sev.warning then some [Tag.unnecessary] else none)

/-- The undefined half of `addReferenceDiagnostics`: roles swapped,
skipped entirely when the configured severity is `null`, never tagged. -/
def undefinedPass (diagnostics : List Diag) (docsList : List ParsedDocument)
    (cur : ParsedDocument) (definitionResolver referenceResolver : ParsedDocument → Table)
    (kind : Str) (actionUndefinedSeverity : Option Sev) : List Diag :=
  match actionUndefinedSeverity with
  | none => diagnostics
  | some s =>
      addPartialReferenceDiagnostics diagnostics docsList cur
        referenceResolver definitionResolver (Msg.undeclared kind) s none

/-- `addReferenceDiagnostics` (`src/addRange.ts` module file): the unused
pass followed by the undefined pass, both appending to `diagnostics`.
The two configured severities are passed explicitly. -/
def addReferenceDiagnostics (diagnostics : List Diag)
    (docsList : List ParsedDocument) (cur : ParsedDocument)
    (definitionResolver referenceResolver : ParsedDocument → Table) (kind : Str)
    (actionUnusedSeverity actionUndefinedSeverity : Option Sev) : List Diag :=
  undefinedPass
    (unusedPass diagnostics docsList cur definitionResolver referenceResolver
      kind actionUnusedSeverity)
    docsList cur definitionResolver referenceResolver kind actionUndefinedSeverity

/-- The per-document body of `updateDiagnosticCollection`: three
`addReferenceDiagnostics` calls (event, state, result) into a fresh
array, then `diagnostics.concat(cur.diagnostics)`. -/
def resolveDocDiagnostics (docsList : List ParsedDocument)
    (sevUnused sevUndefined : Option Sev) (cur : ParsedDocument) : List Diag :=
  let d1 := addReferenceDiagnostics [] docsList cur
    getEventDefinitions getEventReferences "event".toList sevUnused sevUndefined
  let d2 := addReferenceDiagnostics d1 docsList cur
    getStateDefinitions getStateReferences "state".toList sevUnused sevUndefined
  let d3 := addReferenceDiagnostics d2 docsList cur
    getResultDefinitions getResultReferences "result".toList sevUnused sevUndefined
  d3 ++ cur.diagnostics

/-- `updateDiagnosticCollection` (`src/updateDiagnosticCollection.ts`):
clear the collection, then publish, for every tracked document, the
freshly resolved cross-document diagnostics concatenated with the
document's cached local diagnostics. -/
def updateDiagnosticCollection (docsTable : List (Str × ParsedDocument))
    (sevUnused sevUndefined : Option Sev) : List (Str × List Diag) :=
  docsTable.map (fun p =>
    (p.2.doc.uri, resolveDocDiagnostics (docsTable.map Prod.snd) sevUnused sevUndefined p.2))

/-! The document parser (`src/parseHTMLDocument.ts`).  The external HTML
service's tree is the `List Node` input; the attribute records of each
element are those the extractor `parseNodeAttrs` yields for it.  The
mutable `INVALID_PATTERN.lastIndex` is part of the parser state. -/

/-- A character of the JavaScript `\s` class (the ones representable in
attribute values here). -/
def wsChar (c : Char) : Bool :=
  c = ' ' || c = '\t' || c = '\n' || c = '\r' || c = '\x0b' || c = '\x0c'

/-- `END_SPACE_PATTERN.test(value)` for `/(?:^\s|\s$)/`: a leading or
trailing whitespace character.  This regex has no `g` flag, so it is
stateless. -/
def endSpaceTest : Str → Bool
  | [] => false
  | c :: rest => wsChar c || wsChar (List.getLastD (c :: rest) c)

/-- The `validPosition` list of `src/parseHTMLDocument.ts`. -/
def validPosition : List Str :=
  ["replaceChildren".toList, "replaceWith".toList, "before".toList,
    "after".toList, "prepend".toList, "append".toList]

/-- `INVALID_PATTERN.test(value)` for the `g`-flagged regex: searching
starts at the regex's current `lastIndex`; on a match the result is
`true` and `lastIndex` becomes the match end; on failure the result is
`false` and `lastIndex` resets to `0`. -/
def testInvalid (lastIndex : Nat) (s : Str) : Bool × Nat :=
  match matchIndicesFrom lastIndex s with
  | [] => (false, 0)
  | i :: _ => (true, i + 1)

/-- `name.indexOf(":")` (callers only use it on names that contain a
colon, where JavaScript's `-1` convention cannot arise). -/
def colonIdx (name : Str) : Nat :=
  name.findIdx (fun c => decide (c = ':'))

/-- Key-presence test on the element's `attributes` record
(`depends in attributes`); the record's keys are the extracted attribute
names. -/
def hasAttrName (attrs : List AttrRec) (k : Str) : Bool :=
  (attrs.map AttrRec.name).contains k

/-- `addDependsDiagnostic` (`addDependsDiagnostic` module file): appends
a warning tagged `Unnecessary` unless `depends` or `x-` + `depends` is
present among the element's attributes. -/
def addDependsDiagnostic (diagnostics : List Diag) (attrs : List AttrRec)
    (range : Rng) (name depends article : Str) : List Diag :=
  if hasAttrName attrs depends || hasAttrName attrs ("x-".toList ++ depends) then
    diagnostics
  else
    diagnostics ++
      [{ range := range, message := Msg.depends name depends article,
         severity := Sev.warning, source := some "KEML".toList,
         tags := some [Tag.unnecessary] }]

/-- The mutable state of one `parseHTMLDocument` run: the six tables,
the diagnostics array, and the ambient `INVALID_PATTERN.lastIndex`. -/
structure PState where
  event_definitions : Table
  event_references : Table
  state_definitions : Table
  state_references : Table
  result_definitions : Table
  result_references : Table
  diagnostics : List Diag
  lastIndex : Nat
deriving DecidableEq

/-- The fresh state at the start of a parse with ambient regex index
`lastIndex`. -/
def initPState (lastIndex : Nat) : PState :=
  { event_definitions := [], event_references := [], state_definitions := [],
    state_references := [], result_definitions := [], result_references := [],
    diagnostics := [], lastIndex := lastIndex }

/-- The body of the attribute loop of `parseHTMLDocument`
(`src/parseHTMLDocument.ts`, lines 95-181), in source order: the
definition/reference classifier chain, the empty/whitespace reference
diagnostics, the event-filter dependency, the tag-dependent `on`
dependency, the `position` checks (where `&&` short-circuiting means
`INVALID_PATTERN.test` only runs when the value is not a listed
position), and the `x-` `if` dependency. -/
def processAttr (tag : Str) (attrs : List AttrRec) (st : PState) (a : AttrRec) :
    PState :=
  let st1 :=
    if isEventDefinition a.name then
      { st with event_definitions :=
          addDefinitionRanges st.lastIndex st.event_definitions a.value a.range }
    else if isEventReference a.name then
      { st with event_references := addRange st.event_references a.value a.range }
    else if isStateDefinition a.name then
      { st with state_definitions :=
          addDefinitionRanges st.lastIndex st.state_definitions a.value a.range }
    else if isStateReference a.name then
      { st with state_references := addRange st.state_references a.value a.range }
    else if isResultDefinition a.name then
      { st with result_definitions :=
          addDefinitionRanges st.lastIndex st.result_definitions a.value a.range }
    else if isResultReference a.name then
      { st with result_references := addRange st.result_references a.value a.range }
    else st
  let st2 :=
    if isEventReference a.name || isStateReference a.name || isResultReference a.name then
      if a.value = [] then
        let d2 :=
          st1.diagnostics ++
            [{ range := a.fullRange, message := Msg.noAction, severity := Sev.warning,
               source := some "KEML".toList, tags := some [Tag.unnecessary] }]
        { st1 with diagnostics := d2 }
      else if endSpaceTest a.value then
        let d2 :=
          st1.diagnostics ++
            [{ range := a.fullRange, message := Msg.endSpace, severity := Sev.error,
               source := some "KEML".toList, tags := none }]
        { st1 with diagnostics := d2 }
      else st1
    else st1
  let st3 :=
    if isEventFilter a.name then
      let d3 :=
        addDependsDiagnostic st2.diagnostics attrs a.fullRange a.name
          ("on".toList ++ a.name.drop (colonIdx a.name)) "a corresponding".toList
      { st2 with diagnostics := d3 }
    else st2
  let st4 :=
    if isTagOnDependent tag a.name then
      let d4 :=
        addDependsDiagnostic st3.diagnostics attrs a.fullRange a.name
          "on".toList "an".toList
      { st3 with diagnostics := d4 }
    else st3
  let st5 :=
    if isPosition a.name then
      let d5 :=
        addDependsDiagnostic st4.diagnostics attrs a.fullRange a.name
          "render".toList "a".toList
      if validPosition.contains a.value then { st4 with diagnostics := d5 }
      else
        let tr := testInvalid st4.lastIndex a.value
        if tr.1 then { st4 with diagnostics := d5, lastIndex := tr.2 }
        else
          let d5e :=
            d5 ++ [{ range := a.fullRange, message := Msg.invalidPosition,
                     severity := Sev.error, source := some "KEML".toList, tags := none }]
          { st4 with diagnostics := d5e, lastIndex := tr.2 }
    else st4
  if "x-".toList.isPrefixOf a.name then
    let d6 :=
      addDependsDiagnostic st5.diagnostics attrs a.fullRange a.name
        "if".toList "an".toList
    { st5 with diagnostics := d6 }
  else st5

/-- Process one popped node: its children are pushed (handled by the
caller), then each of its attributes is processed in order. -/
def processNode (st : PState) (n : Node) : PState :=
  n.attrs.foldl (processAttr n.tag n.attrs) st

/-- Process one popped node list (the inner `for (node of nodes)` loop's
attribute work, in order). -/
def processNodes (nodes : List Node) (st : PState) : PState :=
  nodes.foldl processNode st

/-- Weight of a node: itself plus all descendants (termination measure
only). -/
def nodeW : Node → Nat
  | .mk _ _ children => 1 + (children.attach.map (fun c => nodeW c.1)).sum
decreasing_by
  have h := List.sizeOf_lt_of_mem c.2
  simp only [Node.mk.sizeOf_spec]
  omega

/-- Weight of a node list. -/
def listW (ns : List Node) : Nat := (ns.map nodeW).sum

/-- Weight of a traversal stack. -/
def stackW (stack : List (List Node)) : Nat := (stack.map listW).sum

/-- The `while ((nodes = stack.pop()))` traversal loop of
`parseHTMLDocument`:  popping a node list pushes, for each node in order,
that node's children (so that the last pushed list is popped first, as
with `Array.prototype.push`/`pop`) and processes the node's attributes. -/
def runStack : List (List Node) → PState → PState
  | [], st => st
  | nodes :: stack', st =>
      runStack ((nodes.map Node.children).reverse ++ stack') (processNodes nodes st)
termination_by stack _ => stackW stack + stack.length
decreasing_by
  have hnodeW : ∀ (t : Str) (a : List AttrRec) (cs : List Node),
      nodeW (Node.mk t a cs) = 1 + listW cs := by
    intro t a cs
    rw [nodeW, List.attach_map_coe]
    rfl
  have hlist : ∀ ns : List Node,
      (ns.map nodeW).sum = ns.length + (List.map listW (ns.map Node.children)).sum := by
    intro ns
    induction ns with
    | nil => simp
    | cons n ns ih =>
        cases n with
        | mk t a cs =>
            simp only [List.map_cons, List.sum_cons, List.length_cons, hnodeW,
              Node.children, listW]
            simp only [listW] at ih
            omega
  have h1 := hlist nodes
  simp only [stackW, listW, List.map_append, List.sum_append, List.map_reverse,
    List.sum_reverse, List.length_append, List.length_reverse, List.length_map,
    List.length_cons, List.map_cons, List.sum_cons]
  simp only [listW] at h1
  omega

/-- `parseHTMLDocument` (`src/parseHTMLDocument.ts`): traverse the tree,
collect the six tables and the local diagnostics, and return them as a
`ParsedDocument` together with the final `INVALID_PATTERN.lastIndex`. -/
def parseHTMLDocument (doc textDoc : TextDoc) (roots : List Node)
    (lastIndex : Nat) : ParsedDocument × Nat :=
  let stF := runStack [roots] (initPState lastIndex)
  ({ doc := doc, textDoc := textDoc, htmlRoots := roots,
     event_definitions := stF.event_definitions,
     event_references := stF.event_references,
     state_definitions := stF.state_definitions,
     state_references := stF.state_references,
     result_definitions := stF.result_definitions,
     result_references := stF.result_references,
     diagnostics := stF.diagnostics }, stF.lastIndex)

/-! The workspace symbol table (`docs` in the `configure` module) and its
lifecycle operations (`src/setDocs.ts`, the `onDidRename` module file).
A JavaScript `Map` keeps unique keys; `set` of an existing key updates
the entry in place, `set` of a new key appends, `delete` removes the
key's entry. -/

/-- `Map.set`: update in place, else append. -/
def tableSet {α : Type} : List (Str × α) → Str → α → List (Str × α)
  | [], k, v => [(k, v)]
  | (k', v') :: rest, k, v =>
      if k' = k then (k, v) :: rest else (k', v') :: tableSet rest k v

/-- `Map.delete`: drop the key's entry (keys of a `Map` are unique). -/
def tableDelete {α : Type} (t : List (Str × α)) (k : Str) : List (Str × α) :=
  t.filter (fun p => !(p.1 = k : Bool))

/-- `onDidRename` (`onDidRename` module file): an untracked old identity
is ignored; otherwise the existing `ParsedDocument` has its `doc` field
replaced by the freshly opened document for the new uri and is re-filed
under the new key — no reparsing happens.  (`updateDiagnosticCollection`
runs afterwards; the table itself is as returned here.) -/
def onDidRename (docsTable : List (Str × ParsedDocument)) (oldUrl newUrl : Str)
    (newDoc : TextDoc) : List (Str × ParsedDocument) :=
  match alistGet docsTable oldUrl with
  | none => docsTable
  | some cur => tableSet (tableDelete docsTable oldUrl) newUrl { cur with doc := newDoc }

/-- The workspace state touched by `setDocs`: the `docs` table, the
published diagnostic collection, and the ambient
`INVALID_PATTERN.lastIndex`. -/
structure WorkState where
  docsTable : List (Str × ParsedDocument)
  published : List (Str × List Diag)
  lastIndex : Nat

/-- Ghost events recording which heavyweight operations `setDocs`
performed: a parse of the given url, and a resolver pass. -/
inductive WEvent where
  | parsed (url : Str)
  | resolved
deriving DecidableEq

/-- `setDocs` (`src/setDocs.ts`): `docs.has(url) !== overwrite` returns
immediately; a document whose language id is not configured or whose
path is filtered out is ignored; otherwise the document is parsed, the
table entry replaced, and the diagnostic collection recomputed.  The
external path filter and HTML parser are passed as `matchFn` and
`htmlParse`; the returned event list records the parse and resolver
work performed. -/
def setDocs (languageIds : List Str) (includeG excludeG : List Str)
    (matchFn : Str → List Str → List Str → Bool) (htmlParse : Str → List Node)
    (sevUnused sevUndefined : Option Sev) (doc : TextDoc) (overwrite : Bool)
    (st : WorkState) : WorkState × List WEvent :=
  let url := doc.uri
  if tableHas st.docsTable url ≠ overwrite then (st, [])
  else if !(languageIds.contains doc.languageId) ||
      !(matchFn doc.path excludeG includeG) then (st, [])
  else
    let textDoc : TextDoc :=
      { uri := url, path := doc.path, version := doc.version,
        languageId := "html".toList, text := doc.text }
    let pr := parseHTMLDocument doc textDoc (htmlParse doc.text) st.lastIndex
    let docsTable' := tableSet st.docsTable url pr.1
    ({ docsTable := docsTable',
       published := updateDiagnosticCollection docsTable' sevUnused sevUndefined,
       lastIndex := pr.2 },
     [WEvent.parsed url, WEvent.resolved])

/-- The classification grammar of spec §4.3: `on:<evt>`/`x-on:<evt>`,
`on`/`x-on`/`reset`/`x-reset`, `if:<s>`/`x-if:<s>`, `if`/`x-if`,
`result`/`x-result`/`error`/`x-error`, `render`/`x-render`. -/
def classificationGrammar (name : Str) : Prop :=
  (∃ evt : Str, name = "on:".toList ++ evt ∨ name = "x-on:".toList ++ evt)
  ∨ name = "on".toList ∨ name = "x-on".toList
  ∨ name = "reset".toList ∨ name = "x-reset".toList
  ∨ (∃ st : Str, name = "if:".toList ++ st ∨ name = "x-if:".toList ++ st)
  ∨ name = "if".toList ∨ name = "x-if".toList
  ∨ name = "result".toList ∨ name = "x-result".toList
  ∨ name = "error".toList ∨ name = "x-error".toList
  ∨ name = "render".toList ∨ name = "x-render".toList

/-- An event-reference name satisfies none of the other five
classifiers. -/
theorem eventReference_profile (n : Str) (h : isEventReference n = true) :
    isEventDefinition n = false ∧ isStateDefinition n = false
      ∧ isStateReference n = false ∧ isResultDefinition n = false
      ∧ isResultReference n = false := by
  rcases (isEventReference_iff n).mp h with rfl | rfl | rfl | rfl <;> exact (by decide)

/-- A state-reference name satisfies none of the other five classifiers. -/
theorem stateReference_profile (n : Str) (h : isStateReference n = true) :
    isEventDefinition n = false ∧ isEventReference n = false
      ∧ isStateDefinition n = false ∧ isResultDefinition n = false
      ∧ isResultReference n = false := by
  rcases (isStateReference_iff n).mp h with rfl | rfl <;> exact (by decide)

/-- A result-definition name satisfies none of the other five
classifiers. -/
theorem resultDefinition_profile (n : Str) (h : isResultDefinition n = true) :
    isEventDefinition n = false ∧ isEventReference n = false
      ∧ isStateDefinition n = false ∧ isStateReference n = false
      ∧ isResultReference n = false := by
  rcases (isResultDefinition_iff n).mp h with rfl | rfl | rfl | rfl <;> exact (by decide)

/-- A result-reference name satisfies none of the other five
classifiers. -/
theorem resultReference_profile (n : Str) (h : isResultReference n = true) :
    isEventDefinition n = false ∧ isEventReference n = false
      ∧ isStateDefinition n = false ∧ isStateReference n = false
      ∧ isResultDefinition n = false := by
  rcases (isResultReference_iff n).mp h with rfl | rfl <;> exact (by decide)

/-- An event-definition name is never a state-definition name: the four
prefix combinations are pairwise incomparable. -/
theorem eventDefinition_not_stateDefinition (n : Str)
    (h : isEventDefinition n = true) : isStateDefinition n = false := by
  by_contra h2'
  rw [Bool.not_eq_false] at h2'
  rcases (isEventDefinition_iff n).mp h with hp1 | hp1 <;>
    rcases (isStateDefinition_iff n).mp h2' with hp2 | hp2 <;>
      exact not_prefix_of_common hp1 hp2 (by decide) (by decide)

/-- Characterization of the short-circuiting reference search. -/
theorem refSearch_eq_true_iff (docsList : List ParsedDocument)
    (right : ParsedDocument → Table) (a : Str) :
    refSearch docsList right a = true ↔ ∃ d ∈ docsList, tableHas (right d) a = true := by
  induction docsList with
  | nil => simp [refSearch]
  | cons ref rest ih =>
      by_cases h : tableHas (right ref) a = true
      · simp [refSearch, h]
      · simp only [refSearch, if_neg h, ih, List.mem_cons]
        constructor
        · rintro ⟨d, hd, hh⟩
          exact ⟨d, Or.inr hd, hh⟩
        · rintro ⟨d, hd | hd, hh⟩
          · subst hd
            exact absurd hh h
          · exact ⟨d, hd, hh⟩

/-- An entry present in some tracked document's table is found. -/
theorem tableHas_of_mem {α : Type} {t : List (Str × α)} {k : Str} {v : α}
    (h : (k, v) ∈ t) : tableHas t k = true := by
  unfold tableHas alistGet
  cases hf : t.find? (fun p => decide (p.1 = k)) with
  | some p => rfl
  | none =>
      exfalso
      have := List.find?_eq_none.mp hf (k, v) h
      simp at this

/-- The accumulator of the `addPartialReferenceDiagnostics` loop is
threaded by appending; the loop's own contribution is one
`entryDiagnostics` block per `left(cur)` entry, in order. -/
theorem appLoop_eq_flatMap (docsList : List ParsedDocument)
    (right : ParsedDocument → Table) (tpl : Str → Msg) (severity : Sev)
    (tags : Option (List Tag)) :
    ∀ (entries : List (Str × List Rng)) (acc : List Diag),
      appLoop docsList right tpl severity tags entries acc
        = acc ++ entries.flatMap
            (fun e => entryDiagnostics docsList right tpl severity tags e.1 e.2) := by
  intro entries
  induction entries with
  | nil => intro acc; simp [appLoop]
  | cons e rest ih =>
      intro acc
      rw [appLoop, ih]
      simp [List.flatMap_cons]

/-- The per-entry block emits one diagnostic per stored range exactly
when no tracked document's `right` table has the action, and nothing
otherwise. -/
theorem entryDiagnostics_eq_ite (docsList : List ParsedDocument)
    (right : ParsedDocument → Table) (tpl : Str → Msg) (severity : Sev)
    (tags : Option (List Tag)) (a : Str) (rs : List Rng) :
    entryDiagnostics docsList right tpl severity tags a rs
      = if docsList.all (fun d => !(tableHas (right d) a)) then
          rs.map (fun range =>
            { range := range, message := tpl a, severity := severity,
              source := some "KEML".toList, tags := tags })
        else [] := by
  unfold entryDiagnostics
  by_cases h : refSearch docsList right a = true
  · obtain ⟨d, hd, hh⟩ := (refSearch_eq_true_iff docsList right a).mp h
    have hall : docsList.all (fun d => !(tableHas (right d) a)) = false := by
      rw [Bool.eq_false_iff]
      intro hcon
      have := List.all_eq_true.mp hcon d hd
      simp [hh] at this
    rw [if_pos h, hall]
    simp
  · have hfalse : refSearch docsList right a = false := by
      rw [Bool.eq_false_iff]
      exact h
    have hall : docsList.all (fun d => !(tableHas (right d) a)) = true := by
      rw [List.all_eq_true]
      intro d hd
      rw [Bool.not_eq_true']
      rw [Bool.eq_false_iff]
      intro hcon
      exact h ((refSearch_eq_true_iff docsList right a).mpr ⟨d, hd, hcon⟩)
    rw [if_neg h, hall]
    simp

/-- Reading an association list one cell at a time. -/
theorem alistGet_cons {α : Type} (k : Str) (v : α) (rest : List (Str × α)) (k' : Str) :
    alistGet ((k, v) :: rest) k' = if k = k' then some v else alistGet rest k' := by
  unfold alistGet
  by_cases h : k = k'
  · rw [List.find?_cons_of_pos _ (by simp [h])]
    simp [h]
  · rw [List.find?_cons_of_neg _ (by simp [h])]
    simp [h]

/-- `Map.set` then `get` of the same key. -/
theorem alistGet_tableSet_self {α : Type} (t : List (Str × α)) (k : Str) (v : α) :
    alistGet (tableSet t k v) k = some v := by
  induction t with
  | nil => simp [tableSet, alistGet_cons]
  | cons p rest ih =>
      obtain ⟨k', v'⟩ := p
      by_cases h : k' = k
      · rw [tableSet, if_pos h, alistGet_cons, if_pos rfl]
      · rw [tableSet, if_neg h, alistGet_cons, if_neg h]
        exact ih

/-- `Map.set` leaves other keys unchanged. -/
theorem alistGet_tableSet_other {α : Type} (t : List (Str × α)) (k : Str) (v : α)
    (k' : Str) (hne : k' ≠ k) : alistGet (tableSet t k v) k' = alistGet t k' := by
  have hkk : ¬(k = k') := fun h => hne h.symm
  induction t with
  | nil =>
      rw [tableSet, alistGet_cons, if_neg hkk]
  | cons p rest ih =>
      obtain ⟨k0, v0⟩ := p
      by_cases h : k0 = k
      · rw [tableSet, if_pos h, alistGet_cons, if_neg hkk, alistGet_cons, if_neg]
        rw [h]
        exact hkk
      · rw [tableSet, if_neg h, alistGet_cons, alistGet_cons, ih]

/-- `Map.delete` then `get` of the same key. -/
theorem alistGet_tableDelete_self {α : Type} (t : List (Str × α)) (k : Str) :
    alistGet (tableDelete t k) k = none := by
  induction t with
  | nil => rfl
  | cons p rest ih =>
      obtain ⟨k0, v0⟩ := p
      by_cases h : k0 = k
      · rw [tableDelete, List.filter_cons]
        rw [show (!decide (k0 = k)) = false by simp [h]]
        simpa [tableDelete] using ih
      · rw [tableDelete, List.filter_cons]
        rw [show (!decide (k0 = k)) = true by simp [h]]
        simp only [if_true, alistGet_cons, if_neg h]
        simpa [tableDelete] using ih

/-- `Map.delete` leaves other keys unchanged. -/
theorem alistGet_tableDelete_other {α : Type} (t : List (Str × α)) (k k' : Str)
    (hne : k' ≠ k) : alistGet (tableDelete t k) k' = alistGet t k' := by
  induction t with
  | nil => rfl
  | cons p rest ih =>
      obtain ⟨k0, v0⟩ := p
      by_cases h : k0 = k
      · rw [tableDelete, List.filter_cons]
        rw [show (!decide (k0 = k)) = false by simp [h]]
        rw [if_neg (by simp)]
        rw [alistGet_cons, if_neg (by rw [h]; exact fun hh => hne hh.symm)]
        simpa [tableDelete] using ih
      · rw [tableDelete, List.filter_cons]
        rw [show (!decide (k0 = k)) = true by simp [h]]
        simp only [if_true, alistGet_cons]
        by_cases h2 : k0 = k'
        · rw [if_pos h2, if_pos h2]
        · rw [if_neg h2, if_neg h2]
          simpa [tableDelete] using ih

/-- The symbol-table invariant of the spec: every key is a non-empty
name and maps to a non-empty list of ranges. -/
def TableInv (t : Table) : Prop := ∀ p ∈ t, p.1 ≠ [] ∧ p.2 ≠ []

/-- Presence in a table is membership of its key list. -/
theorem tableHas_iff_mem_keys {α : Type} (t : List (Str × α)) (k : Str) :
    tableHas t k = true ↔ k ∈ t.map Prod.fst := by
  unfold tableHas alistGet
  cases hf : t.find? (fun p => decide (p.1 = k)) with
  | some p =>
      have hp := List.find?_some hf
      have hmem := List.mem_of_find?_eq_some hf
      simp only [decide_eq_true_eq] at hp
      simp only [Option.isSome_some, true_iff]
      exact List.mem_map.mpr ⟨p, hmem, hp⟩
  | none =>
      simp only [Option.isSome_none, Bool.false_eq_true, false_iff]
      intro hmem
      obtain ⟨p, hp, hk⟩ := List.mem_map.mp hmem
      have := List.find?_eq_none.mp hf p hp
      simp [hk] at this

/-- `addRangeGo` preserves the table invariant for a non-empty key. -/
theorem addRangeGo_inv (t : Table) (key : Str) (r : Rng) (hkey : key ≠ [])
    (hinv : TableInv t) : TableInv (addRangeGo t key r) := by
  induction t with
  | nil =>
      intro p hp
      simp only [addRangeGo, List.mem_singleton] at hp
      subst hp
      exact ⟨hkey, by simp⟩
  | cons q rest ih =>
      obtain ⟨k0, rs0⟩ := q
      have hq := hinv (k0, rs0) (List.mem_cons_self _ _)
      have hrest : TableInv rest := fun p hp => hinv p (List.mem_cons_of_mem _ hp)
      by_cases h : k0 = key
      · rw [addRangeGo, if_pos h]
        intro p hp
        rcases List.mem_cons.mp hp with rfl | hp'
        · exact ⟨hq.1, by simp⟩
        · exact hrest p hp'
      · rw [addRangeGo, if_neg h]
        intro p hp
        rcases List.mem_cons.mp hp with rfl | hp'
        · exact hq
        · exact ih hrest p hp'

/-- `addRange` preserves the table invariant. -/
theorem addRange_inv (t : Table) (key : Str) (r : Rng) (hinv : TableInv t) :
    TableInv (addRange t key r) := by
  unfold addRange
  by_cases h : key = []
  · rw [if_pos h]
    exact hinv
  · rw [if_neg h]
    exact addRangeGo_inv t key r h hinv

/-- `addRangeGo` introduces no key other than the one given. -/
theorem addRangeGo_keys (t : Table) (key : Str) (r : Rng) (k : Str)
    (h : k ∈ (addRangeGo t key r).map Prod.fst) :
    k = key ∨ k ∈ t.map Prod.fst := by
  induction t with
  | nil =>
      simp only [addRangeGo, List.map_cons, List.map_nil, List.mem_singleton] at h
      exact Or.inl h
  | cons q rest ih =>
      obtain ⟨k0, rs0⟩ := q
      by_cases hk : k0 = key
      · rw [addRangeGo, if_pos hk] at h
        simp only [List.map_cons, List.mem_cons] at h ⊢
        rcases h with rfl | h'
        · exact Or.inl hk
        · exact Or.inr (Or.inr h')
      · rw [addRangeGo, if_neg hk] at h
        simp only [List.map_cons, List.mem_cons] at h ⊢
        rcases h with rfl | h'
        · exact Or.inr (Or.inl rfl)
        · rcases ih h' with h'' | h''
          · exact Or.inl h''
          · exact Or.inr (Or.inr h'')

/-- `addRange` introduces no key other than the one given. -/
theorem addRange_keys (t : Table) (key : Str) (r : Rng) (k : Str)
    (h : k ∈ (addRange t key r).map Prod.fst) :
    k = key ∨ k ∈ t.map Prod.fst := by
  unfold addRange at h
  by_cases hk : key = []
  · rw [if_pos hk] at h
    exact Or.inr h
  · rw [if_neg hk] at h
    exact addRangeGo_keys t key r k h

/-- The token fold of `addDefinitionRanges` preserves the invariant as
long as every token is non-empty. -/
theorem foldl_addRange_inv (tokens : List (Str × Nat)) (range : Rng) :
    ∀ store : Table, TableInv store → (∀ td ∈ tokens, td.1 ≠ []) →
      TableInv (tokens.foldl
        (fun st td => addRange st td.1 (tokenRange range td.2 td.1.length)) store) := by
  induction tokens with
  | nil => intro store hinv _; exact hinv
  | cons td rest ih =>
      intro store hinv htok
      rw [List.foldl_cons]
      exact ih _ (addRange_inv _ _ _ hinv)
        (fun td' h' => htok td' (List.mem_cons_of_mem _ h'))

/-- Keys produced by the token fold of `addDefinitionRanges` come from
the store or from the tokens. -/
theorem foldl_addRange_keys (range : Rng) :
    ∀ (tokens : List (Str × Nat)) (store : Table) (k : Str),
      k ∈ ((tokens.foldl
        (fun st td => addRange st td.1 (tokenRange range td.2 td.1.length)) store).map
          Prod.fst) →
      k ∈ store.map Prod.fst ∨ ∃ d, (k, d) ∈ tokens := by
  intro tokens
  induction tokens with
  | nil => intro store k h; exact Or.inl h
  | cons td rest ih =>
      intro store k h
      rw [List.foldl_cons] at h
      rcases ih _ k h with h' | ⟨d, hd⟩
      · rcases addRange_keys _ _ _ _ h' with rfl | h''
        · exact Or.inr ⟨td.2, by rw [← Prod.mk.eta (p := td)]; exact List.mem_cons_self _ _⟩
        · exact Or.inl h''
      · exact Or.inr ⟨d, List.mem_cons_of_mem _ hd⟩

/-- `addDefinitionRanges` preserves the table invariant, for any ambient
regex state. -/
theorem addDefinitionRanges_inv (lastIndex : Nat) (store : Table) (value : Str)
    (range : Rng) (hinv : TableInv store) :
    TableInv (addDefinitionRanges lastIndex store value range) := by
  unfold addDefinitionRanges
  exact foldl_addRange_inv _ range store hinv
    (fun td h => (parseTokens_token_shape lastIndex value td.1 td.2
      (by rw [Prod.mk.eta]; exact h)).1)

/-- A key of `addDefinitionRanges`'s result is an existing key or a
(non-empty) token extracted from the value. -/
theorem addDefinitionRanges_keys (lastIndex : Nat) (store : Table) (value : Str)
    (range : Rng) (k : Str)
    (h : k ∈ (addDefinitionRanges lastIndex store value range).map Prod.fst) :
    k ∈ store.map Prod.fst ∨ ∃ d, (k, d) ∈ parseTokens lastIndex value ∧ k ≠ [] := by
  unfold addDefinitionRanges at h
  rcases foldl_addRange_keys range _ store k h with h' | ⟨d, hd⟩
  · exact Or.inl h'
  · exact Or.inr ⟨d, hd, (parseTokens_token_shape lastIndex value k d hd).1⟩

/-- C7: the six attribute-name classifier predicates are pairwise
disjoint — every attribute name satisfies at most one of
`isEventDefinition`, `isEventReference`, `isStateDefinition`,
`isStateReference`, `isResultDefinition`, `isResultReference` — and any
name outside the classification grammar of spec §4.3 satisfies none of
them. -/
theorem c7_classifier_partition :
    ∀ name : Str,
      ((isEventDefinition name = true → isEventReference name = false)
        ∧ (isEventDefinition name = true → isStateDefinition name = false)
        ∧ (isEventDefinition name = true → isStateReference name = false)
        ∧ (isEventDefinition name = true → isResultDefinition name = false)
        ∧ (isEventDefinition name = true → isResultReference name = false)
        ∧ (isEventReference name = true → isStateDefinition name = false)
        ∧ (isEventReference name = true → isStateReference name = false)
        ∧ (isEventReference name = true → isResultDefinition name = false)
        ∧ (isEventReference name = true → isResultReference name = false)
        ∧ (isStateDefinition name = true → isStateReference name = false)
        ∧ (isStateDefinition name = true → isResultDefinition name = false)
        ∧ (isStateDefinition name = true → isResultReference name = false)
        ∧ (isStateReference name = true → isResultDefinition name = false)
        ∧ (isStateReference name = true → isResultReference name = false)
        ∧ (isResultDefinition name = true → isResultReference name = false))
      ∧ (¬ classificationGrammar name →
          isEventDefinition name = false ∧ isEventReference name = false
            ∧ isStateDefinition name = false ∧ isStateReference name = false
            ∧ isResultDefinition name = false ∧ isResultReference name = false) := by
  intro name
  constructor
  · refine ⟨?_, ?_, ?_, ?_, ?_, ?_, ?_, ?_, ?_, ?_, ?_, ?_, ?_, ?_, ?_⟩
    · intro h
      cases hb : isEventReference name with
      | false => rfl
      | true =>
          have hfalse := (eventReference_profile name hb).1
          rw [h] at hfalse
          exact Bool.noConfusion hfalse
    · exact eventDefinition_not_stateDefinition name
    · intro h
      cases hb : isStateReference name with
      | false => rfl
      | true =>
          have hfalse := (stateReference_profile name hb).1
          rw [h] at hfalse
          exact Bool.noConfusion hfalse
    · intro h
      cases hb : isResultDefinition name with
      | false => rfl
      | true =>
          have hfalse := (resultDefinition_profile name hb).1
          rw [h] at hfalse
          exact Bool.noConfusion hfalse
    · intro h
      cases hb : isResultReference name with
      | false => rfl
      | true =>
          have hfalse := (resultReference_profile name hb).1
          rw [h] at hfalse
          exact Bool.noConfusion hfalse
    · exact fun h => (eventReference_profile name h).2.1
    · exact fun h => (eventReference_profile name h).2.2.1
    · exact fun h => (eventReference_profile name h).2.2.2.1
    · exact fun h => (eventReference_profile name h).2.2.2.2
    · intro h
      cases hb : isStateReference name with
      | false => rfl
      | true =>
          have hfalse := (stateReference_profile name hb).2.2.1
          rw [h] at hfalse
          exact Bool.noConfusion hfalse
    · intro h
      cases hb : isResultDefinition name with
      | false => rfl
      | true =>
          have hfalse := (resultDefinition_profile name hb).2.2.1
          rw [h] at hfalse
          exact Bool.noConfusion hfalse
    · intro h
      cases hb : isResultReference name with
      | false => rfl
      | true =>
          have hfalse := (resultReference_profile name hb).2.2.1
          rw [h] at hfalse
          exact Bool.noConfusion hfalse
    · exact fun h => (stateReference_profile name h).2.2.2.1
    · exact fun h => (stateReference_profile name h).2.2.2.2
    · exact fun h => (resultDefinition_profile name h).2.2.2.2
  · intro hng
    refine ⟨?_, ?_, ?_, ?_, ?_, ?_⟩
    · cases hb : isEventDefinition name with
      | false => rfl
      | true =>
          exfalso
          apply hng
          rcases (isEventDefinition_iff name).mp hb with hp | hp
          · obtain ⟨t, ht⟩ := hp
            exact Or.inl ⟨t, Or.inl ht.symm⟩
          · obtain ⟨t, ht⟩ := hp
            exact Or.inl ⟨t, Or.inr ht.symm⟩
    · cases hb : isEventReference name with
      | false => rfl
      | true =>
          exfalso
          apply hng
          rcases (isEventReference_iff name).mp hb with rfl | rfl | rfl | rfl
          · exact Or.inr (Or.inl rfl)
          · exact Or.inr (Or.inr (Or.inl rfl))
          · exact Or.inr (Or.inr (Or.inr (Or.inl rfl)))
          · exact Or.inr (Or.inr (Or.inr (Or.inr (Or.inl rfl))))
    · cases hb : isStateDefinition name with
      | false => rfl
      | true =>
          exfalso
          apply hng
          rcases (isStateDefinition_iff name).mp hb with hp | hp
          · obtain ⟨t, ht⟩ := hp
            exact Or.inr (Or.inr (Or.inr (Or.inr (Or.inr (Or.inl ⟨t, Or.inl ht.symm⟩)))))
          · obtain ⟨t, ht⟩ := hp
            exact Or.inr (Or.inr (Or.inr (Or.inr (Or.inr (Or.inl ⟨t, Or.inr ht.symm⟩)))))
    · cases hb : isStateReference name with
      | false => rfl
      | true =>
          exfalso
          apply hng
          rcases (isStateReference_iff name).mp hb with rfl | rfl
          · exact Or.inr (Or.inr (Or.inr (Or.inr (Or.inr (Or.inr (Or.inl rfl))))))
          · exact Or.inr (Or.inr (Or.inr (Or.inr (Or.inr (Or.inr (Or.inr (Or.inl rfl)))))))
    · cases hb : isResultDefinition name with
      | false => rfl
      | true =>
          exfalso
          apply hng
          rcases (isResultDefinition_iff name).mp hb with rfl | rfl | rfl | rfl
          · exact Or.inr (Or.inr (Or.inr (Or.inr (Or.inr (Or.inr (Or.inr (Or.inr
              (Or.inl rfl))))))))
          · exact Or.inr (Or.inr (Or.inr (Or.inr (Or.inr (Or.inr (Or.inr (Or.inr
              (Or.inr (Or.inl rfl)))))))))
          · exact Or.inr (Or.inr (Or.inr (Or.inr (Or.inr (Or.inr (Or.inr (Or.inr
              (Or.inr (Or.inr (Or.inl rfl))))))))))
          · exact Or.inr (Or.inr (Or.inr (Or.inr (Or.inr (Or.inr (Or.inr (Or.inr
              (Or.inr (Or.inr (Or.inr (Or.inl rfl)))))))))))
    · cases hb : isResultReference name with
      | false => rfl
      | true =>
          exfalso
          apply hng
          rcases (isResultReference_iff name).mp hb with rfl | rfl
          · exact Or.inr (Or.inr (Or.inr (Or.inr (Or.inr (Or.inr (Or.inr (Or.inr
              (Or.inr (Or.inr (Or.inr (Or.inr (Or.inl rfl))))))))))))
          · exact Or.inr (Or.inr (Or.inr (Or.inr (Or.inr (Or.inr (Or.inr (Or.inr
              (Or.inr (Or.inr (Or.inr (Or.inr (Or.inr rfl))))))))))))

/-- Witness for C7 at concrete attribute names: `on:click` is an event
definition and then not a state definition; `render` is a result
reference and then not a result definition (the theorem applied with its
hypotheses discharged by computation). -/
theorem c7_classifier_partition_witness :
    isStateDefinition "on:click".toList = false
      ∧ isResultReference "render".toList = true := by
  constructor
  · exact (c7_classifier_partition "on:click".toList).1.2.1 (by decide)
  · decide

/-- C2: when the configured unused severity is enabled, the unused pass
emits, for each definition-table entry whose name no tracked document
references, exactly one diagnostic per stored definition range, at that
severity, tagged `Unnecessary` exactly when the severity is the warning
level, and nothing for names referenced somewhere; when the severity is
configured as disabled (`null`), the pass emits nothing at all. -/
theorem c2_unused_pass_characterization :
    ∀ (diagnostics : List Diag) (docsList : List ParsedDocument)
      (cur : ParsedDocument) (definitionResolver referenceResolver : ParsedDocument → Table)
      (kind : Str),
      (∀ s : Sev,
        unusedPass diagnostics docsList cur definitionResolver referenceResolver kind (some s)
          = diagnostics ++ (definitionResolver cur).flatMap (fun e =>
              if docsList.all (fun d => !(tableHas (referenceResolver d) e.1)) then
                e.2.map (fun range =>
                  { range := range, message := Msg.unused kind e.1, severity := s,
                    source := some "KEML".toList,
                    tags := if s = Sev.warning then some [Tag.unnecessary] else none })
              else []))
      ∧ unusedPass diagnostics docsList cur definitionResolver referenceResolver kind none
          = diagnostics := by
  intro diagnostics docsList cur definitionResolver referenceResolver kind
  constructor
  · intro s
    have hrw : unusedPass diagnostics docsList cur definitionResolver referenceResolver
        kind (some s)
        = appLoop docsList referenceResolver (Msg.unused kind) s
            (if s = Sev.warning then some [Tag.unnecessary] else none)
            (definitionResolver cur) diagnostics := rfl
    rw [hrw, appLoop_eq_flatMap]
    have hfun : (fun e : Str × List Rng =>
        entryDiagnostics docsList referenceResolver (Msg.unused kind) s
          (if s = Sev.warning then some [Tag.unnecessary] else none) e.1 e.2)
        = (fun e : Str × List Rng =>
            if docsList.all (fun d => !(tableHas (referenceResolver d) e.1)) then
              e.2.map (fun range =>
                { range := range, message := Msg.unused kind e.1, severity := s,
                  source := some "KEML".toList,
                  tags := if s = Sev.warning then some [Tag.unnecessary] else none })
            else []) := by
      funext e
      exact entryDiagnostics_eq_ite docsList referenceResolver (Msg.unused kind) s
        (if s = Sev.warning then some [Tag.unnecessary] else none) e.1 e.2
    rw [hfun]
  · rfl

/-- C4: for one resolver pass over a fixed workspace table, a name that
has both a definition occurrence and a reference occurrence in tracked
documents can trigger neither an unused-pass diagnostic nor an
undefined-pass diagnostic: both per-entry emissions are empty, so the
unused and undefined diagnostic sets for the same name are disjoint. -/
theorem c4_unused_undefined_disjoint :
    ∀ (docsList : List ParsedDocument) (cur cur' : ParsedDocument)
      (definitionResolver referenceResolver : ParsedDocument → Table)
      (n : Str) (rs rs' : List Rng) (tplU tplD : Str → Msg) (sU sD : Sev)
      (tagsU tagsD : Option (List Tag)),
      cur ∈ docsList → cur' ∈ docsList →
      (n, rs) ∈ definitionResolver cur → (n, rs') ∈ referenceResolver cur' →
      entryDiagnostics docsList referenceResolver tplU sU tagsU n rs = []
        ∧ entryDiagnostics docsList definitionResolver tplD sD tagsD n rs' = [] := by
  intro docsList cur cur' definitionResolver referenceResolver n rs rs'
    tplU tplD sU sD tagsU tagsD hcur hcur' hdef href
  constructor
  · unfold entryDiagnostics
    rw [if_pos ((refSearch_eq_true_iff docsList referenceResolver n).mpr
      ⟨cur', hcur', tableHas_of_mem href⟩)]
  · unfold entryDiagnostics
    rw [if_pos ((refSearch_eq_true_iff docsList definitionResolver n).mpr
      ⟨cur, hcur, tableHas_of_mem hdef⟩)]

/-- A zero-width sample range for concrete witnesses. -/
def rng0 : Rng :=
  { start := { line := 0, character := 0 }, stop := { line := 0, character := 4 } }

/-- A second sample range. -/
def rng1 : Rng :=
  { start := { line := 0, character := 10 }, stop := { line := 0, character := 24 } }

/-- A third sample range. -/
def rng2 : Rng :=
  { start := { line := 1, character := 10 }, stop := { line := 1, character := 30 } }

/-- A minimal document identity for concrete witnesses. -/
def emptyTextDoc : TextDoc :=
  { uri := "file:a".toList, path := "/a".toList, version := 1,
    languageId := "html".toList, text := [] }

/-- A `ParsedDocument` with given event tables and no other content,
used in concrete witnesses. -/
def sampleDoc (ed er : Table) : ParsedDocument :=
  { doc := emptyTextDoc, textDoc := emptyTextDoc, htmlRoots := [],
    event_definitions := ed, event_references := er, state_definitions := [],
    state_references := [], result_definitions := [], result_references := [],
    diagnostics := [] }

/-- Witness for C4: with one tracked document both defining and
referencing event action `save`, neither pass emits anything for it. -/
theorem c4_unused_undefined_disjoint_witness :
    entryDiagnostics [sampleDoc [("save".toList, [rng0])] [("save".toList, [rng1])]]
        getEventReferences (Msg.unused "event".toList) Sev.warning
        (some [Tag.unnecessary]) "save".toList [rng0] = []
      ∧ entryDiagnostics [sampleDoc [("save".toList, [rng0])] [("save".toList, [rng1])]]
        getEventDefinitions (Msg.undeclared "event".toList) Sev.error none
        "save".toList [rng1] = [] :=
  c4_unused_undefined_disjoint
    [sampleDoc [("save".toList, [rng0])] [("save".toList, [rng1])]]
    (sampleDoc [("save".toList, [rng0])] [("save".toList, [rng1])])
    (sampleDoc [("save".toList, [rng0])] [("save".toList, [rng1])])
    getEventDefinitions getEventReferences "save".toList [rng0] [rng1]
    (Msg.unused "event".toList) (Msg.undeclared "event".toList)
    Sev.warning Sev.error (some [Tag.unnecessary]) none
    (List.mem_singleton.mpr rfl) (List.mem_singleton.mpr rfl)
    (by decide) (by decide)

/-- C9: `addRange` ignores an empty key; `addRange` and
`addDefinitionRanges` preserve the invariant that every stored key is a
non-empty name mapped to a non-empty range list; and any key present
after `addDefinitionRanges` was already present or is a non-empty token
extracted from the attribute value. -/
theorem c9_symbol_table_invariant :
    (∀ (store : Table) (r : Rng), addRange store [] r = store)
      ∧ (∀ (store : Table) (key : Str) (r : Rng), TableInv store →
          TableInv (addRange store key r))
      ∧ (∀ (lastIndex : Nat) (store : Table) (value : Str) (range : Rng),
          TableInv store → TableInv (addDefinitionRanges lastIndex store value range))
      ∧ (∀ (lastIndex : Nat) (store : Table) (value : Str) (range : Rng) (k : Str),
          tableHas (addDefinitionRanges lastIndex store value range) k = true →
          tableHas store k = true
            ∨ ∃ d, (k, d) ∈ parseTokens lastIndex value ∧ k ≠ []) := by
  refine ⟨?_, ?_, ?_, ?_⟩
  · intro store r
    simp [addRange]
  · intro store key r hinv
    exact addRange_inv store key r hinv
  · intro lastIndex store value range hinv
    exact addDefinitionRanges_inv lastIndex store value range hinv
  · intro lastIndex store value range k h
    rcases addDefinitionRanges_keys lastIndex store value range k
        ((tableHas_iff_mem_keys _ k).mp h) with h' | h'
    · exact Or.inl ((tableHas_iff_mem_keys _ k).mpr h')
    · exact Or.inr h'

/-- Witness for C9 at concrete inputs: the invariant holds after adding
to an empty store, and the key `a` present after tokenizing `a b` comes
from a non-empty token. -/
theorem c9_symbol_table_invariant_witness :
    TableInv (addRange [] "foo".toList rng0)
      ∧ (tableHas ([] : Table) "a".toList = true
          ∨ ∃ d, ("a".toList, d) ∈ parseTokens 0 "a b".toList ∧ "a".toList ≠ []) := by
  constructor
  · exact c9_symbol_table_invariant.2.1 [] "foo".toList rng0
      (by intro p hp; cases hp)
  · exact c9_symbol_table_invariant.2.2.2 0 [] "a b".toList rng0 "a".toList (by decide)

/-- C10: `setDocs` with `overwrite = false` (document created) on an
already-tracked identity, or `overwrite = true` (document changed) on an
untracked identity, returns immediately: the workspace state — table,
published diagnostics and regex state — is unchanged and no parse or
resolver event happens. -/
theorem c10_setDocs_early_return :
    ∀ (languageIds includeG excludeG : List Str)
      (matchFn : Str → List Str → List Str → Bool) (htmlParse : Str → List Node)
      (sevUnused sevUndefined : Option Sev) (doc : TextDoc) (st : WorkState),
      (tableHas st.docsTable doc.uri = true →
        setDocs languageIds includeG excludeG matchFn htmlParse sevUnused sevUndefined
          doc false st = (st, []))
      ∧ (tableHas st.docsTable doc.uri = false →
        setDocs languageIds includeG excludeG matchFn htmlParse sevUnused sevUndefined
          doc true st = (st, [])) := by
  intro languageIds includeG excludeG matchFn htmlParse sevUnused sevUndefined doc st
  constructor
  · intro h
    unfold setDocs
    rw [if_pos (by rw [h]; simp)]
  · intro h
    unfold setDocs
    rw [if_pos (by rw [h]; simp)]

/-- Witness for C10: a created-notification for a tracked identity and a
changed-notification for an untracked identity both leave a concrete
workspace state untouched. -/
theorem c10_setDocs_early_return_witness :
    setDocs ["html".toList] [] [] (fun _ _ _ => true) (fun _ => []) none none
        emptyTextDoc false
        { docsTable := [("file:a".toList, sampleDoc [] [])], published := [],
          lastIndex := 0 }
      = ({ docsTable := [("file:a".toList, sampleDoc [] [])], published := [],
           lastIndex := 0 }, [])
      ∧ setDocs ["html".toList] [] [] (fun _ _ _ => true) (fun _ => []) none none
        emptyTextDoc true { docsTable := [], published := [], lastIndex := 0 }
      = ({ docsTable := [], published := [], lastIndex := 0 }, []) := by
  constructor
  · exact (c10_setDocs_early_return ["html".toList] [] [] (fun _ _ _ => true)
      (fun _ => []) none none emptyTextDoc
      { docsTable := [("file:a".toList, sampleDoc [] [])], published := [],
        lastIndex := 0 }).1 (by decide)
  · exact (c10_setDocs_early_return ["html".toList] [] [] (fun _ _ _ => true)
      (fun _ => []) none none emptyTextDoc
      { docsTable := [], published := [], lastIndex := 0 }).2 (by decide)

/-- C8: renaming a tracked identity re-files the very same parsed
content — all six symbol tables and the cached local diagnostics — under
the new key without reparsing (only the `doc` handle is refreshed), the
old key is gone, and every other entry is untouched; renaming an
untracked identity leaves the table unchanged. -/
theorem c8_rename_relinks_without_reparse :
    ∀ (docsTable : List (Str × ParsedDocument)) (oldUrl newUrl : Str)
      (newDoc : TextDoc),
      (alistGet docsTable oldUrl = none →
        onDidRename docsTable oldUrl newUrl newDoc = docsTable)
      ∧ (∀ cur, alistGet docsTable oldUrl = some cur → oldUrl ≠ newUrl →
          alistGet (onDidRename docsTable oldUrl newUrl newDoc) newUrl
              = some { cur with doc := newDoc }
          ∧ alistGet (onDidRename docsTable oldUrl newUrl newDoc) oldUrl = none
          ∧ (∀ k, k ≠ oldUrl → k ≠ newUrl →
              alistGet (onDidRename docsTable oldUrl newUrl newDoc) k
                = alistGet docsTable k)
          ∧ ({ cur with doc := newDoc } : ParsedDocument).event_definitions
              = cur.event_definitions
          ∧ ({ cur with doc := newDoc } : ParsedDocument).event_references
              = cur.event_references
          ∧ ({ cur with doc := newDoc } : ParsedDocument).state_definitions
              = cur.state_definitions
          ∧ ({ cur with doc := newDoc } : ParsedDocument).state_references
              = cur.state_references
          ∧ ({ cur with doc := newDoc } : ParsedDocument).result_definitions
              = cur.result_definitions
          ∧ ({ cur with doc := newDoc } : ParsedDocument).result_references
              = cur.result_references
          ∧ ({ cur with doc := newDoc } : ParsedDocument).diagnostics
              = cur.diagnostics) := by
  intro docsTable oldUrl newUrl newDoc
  constructor
  · intro h
    unfold onDidRename
    rw [h]
  · intro cur hcur hne
    have hrw : onDidRename docsTable oldUrl newUrl newDoc
        = tableSet (tableDelete docsTable oldUrl) newUrl { cur with doc := newDoc } := by
      unfold onDidRename
      rw [hcur]
    refine ⟨?_, ?_, ?_, rfl, rfl, rfl, rfl, rfl, rfl, rfl⟩
    · rw [hrw]
      exact alistGet_tableSet_self _ newUrl _
    · rw [hrw, alistGet_tableSet_other _ _ _ oldUrl hne]
      exact alistGet_tableDelete_self docsTable oldUrl
    · intro k hko hkn
      rw [hrw, alistGet_tableSet_other _ _ _ k hkn]
      exact alistGet_tableDelete_other docsTable oldUrl k hko

/-- Witness for C8: renaming a concrete one-entry table re-files the
same tables and diagnostics under the new key. -/
theorem c8_rename_relinks_without_reparse_witness :
    alistGet (onDidRename [("file:a".toList, sampleDoc [("save".toList, [rng0])] [])]
        "file:a".toList "file:b".toList emptyTextDoc) "file:b".toList
      = some { sampleDoc [("save".toList, [rng0])] [] with doc := emptyTextDoc }
      ∧ alistGet (onDidRename [("file:a".toList, sampleDoc [("save".toList, [rng0])] [])]
        "file:a".toList "file:b".toList emptyTextDoc) "file:a".toList = none :=
  ⟨((c8_rename_relinks_without_reparse
      [("file:a".toList, sampleDoc [("save".toList, [rng0])] [])]
      "file:a".toList "file:b".toList emptyTextDoc).2
      (sampleDoc [("save".toList, [rng0])] []) rfl (by decide)).1,
   ((c8_rename_relinks_without_reparse
      [("file:a".toList, sampleDoc [("save".toList, [rng0])] [])]
      "file:a".toList "file:b".toList emptyTextDoc).2
      (sampleDoc [("save".toList, [rng0])] []) rfl (by decide)).2.1⟩

/-- C6: on bracket-free input the tokenizer splits on spaces: joining
the tokens with single spaces reproduces the input with leading/trailing
spaces removed and space runs collapsed; every token is non-empty and
occurs in the input at its recorded start offset; all-space and empty
inputs produce no tokens. -/
theorem c6_tokenizer_round_trip :
    ∀ s : Str, (∀ c ∈ s, bracketChar c = false) →
      joinSp ((parseTokens 0 s).map Prod.fst) = normSpace s
      ∧ (∀ t d, (t, d) ∈ parseTokens 0 s → t ≠ [] ∧ t <+: s.drop d)
      ∧ ((∀ c ∈ s, c = ' ') → parseTokens 0 s = [])
      ∧ parseTokens 0 ([] : Str) = [] := by
  intro s h
  refine ⟨?_, ?_, ?_, by decide⟩
  · rw [parseTokens_of_no_bracket 0 s h]
    exact (joinSp_predTokensAux s).1 0
  · intro t d hmem
    exact parseTokens_token_shape 0 s t d hmem
  · intro hsp
    exact parseTokens_all_space s hsp

/-- Witness for C6 at the concrete input `" a  b "`. -/
theorem c6_tokenizer_round_trip_witness :
    joinSp ((parseTokens 0 " a  b ".toList).map Prod.fst) = normSpace " a  b ".toList
      ∧ (∀ t d, (t, d) ∈ parseTokens 0 " a  b ".toList →
          t ≠ [] ∧ t <+: " a  b ".toList.drop d)
      ∧ ((∀ c ∈ " a  b ".toList, c = ' ') → parseTokens 0 " a  b ".toList = [])
      ∧ parseTokens 0 ([] : Str) = [] :=
  c6_tokenizer_round_trip " a  b ".toList (by decide)

/-- A non-negative `lastIndexOfSpace s k` result is the LAST space
at-or-before `k`: it is `≤ k`, points at a space, and no later index
`≤ k` is a space. -/
theorem lastIndexOfSpace_maximal (s : Str) (k : Nat) (j : Nat)
    (hj : (j : Int) = lastIndexOfSpace s k) :
    j ≤ k ∧ s[j]? = some ' ' ∧ ∀ j', j < j' → j' ≤ k → s[j']? ≠ some ' ' := by
  unfold lastIndexOfSpace at hj
  cases hfind : (List.range (k + 1)).reverse.find? (fun j => decide (s[j]? = some ' ')) with
  | none =>
      rw [hfind] at hj
      simp only [] at hj
      omega
  | some j0 =>
      rw [hfind] at hj
      simp only [] at hj
      have hjj : j = j0 := by omega
      subst hjj
      rw [List.find?_eq_some_iff_getElem] at hfind
      obtain ⟨hp, i, hi, hval, hprev⟩ := hfind
      have hlen : ((List.range (k + 1)).reverse).length = k + 1 := by simp
      have hvi : ((List.range (k + 1)).reverse)[i] = k - i := by
        rw [List.getElem_reverse]
        rw [List.getElem_range]
        simp only [List.length_range]
        omega
      rw [hvi] at hval
      have hik : i ≤ k := by omega
      refine ⟨by omega, by simpa using hp, ?_⟩
      intro j' h1 h2
      have hi'lt : k - j' < i := by omega
      have hbound : k - j' < ((List.range (k + 1)).reverse).length := by omega
      have hthis := hprev (k - j') hi'lt
      have hvi' : ((List.range (k + 1)).reverse)[k - j'] = j' := by
        rw [List.getElem_reverse]
        rw [List.getElem_range]
        simp only [List.length_range]
        omega
      rw [hvi'] at hthis
      simpa using hthis

/-- If `lastIndexOfSpace s k = -1` there is no space at-or-before `k`. -/
theorem lastIndexOfSpace_neg (s : Str) (k : Nat)
    (h : lastIndexOfSpace s k = -1) : ∀ j ≤ k, s[j]? ≠ some ' ' := by
  intro j hjk hsp
  unfold lastIndexOfSpace at h
  cases hfind : (List.range (k + 1)).reverse.find? (fun j => decide (s[j]? = some ' ')) with
  | none =>
      have hmem : j ∈ (List.range (k + 1)).reverse := by
        rw [List.mem_reverse, List.mem_range]
        omega
      have := List.find?_eq_none.mp hfind j hmem
      simp [hsp] at this
  | some j0 =>
      rw [hfind] at h
      simp only [] at h
      omega

/-- A non-negative `indexOfSpaceFrom s k` result is the FIRST space
at-or-after `k`: it is `≥ k`, points at a space, and no earlier index
`≥ k` is a space. -/
theorem indexOfSpaceFrom_minimal (s : Str) (k : Nat) (j : Nat)
    (hj : (j : Int) = indexOfSpaceFrom s k) :
    k ≤ j ∧ s[j]? = some ' ' ∧ ∀ j', k ≤ j' → j' < j → s[j']? ≠ some ' ' := by
  unfold indexOfSpaceFrom at hj
  cases hfind : (List.range s.length).find?
      (fun j => decide (k ≤ j) && decide (s[j]? = some ' ')) with
  | none =>
      rw [hfind] at hj
      simp only [] at hj
      omega
  | some j0 =>
      rw [hfind] at hj
      simp only [] at hj
      have hjj : j = j0 := by omega
      subst hjj
      rw [List.find?_eq_some_iff_getElem] at hfind
      obtain ⟨hp, i, hi, hval, hprev⟩ := hfind
      have hlen : (List.range s.length).length = s.length := by simp
      have hvi : (List.range s.length)[i] = i := by rw [List.getElem_range]
      rw [hvi] at hval
      subst hval
      simp only [Bool.and_eq_true, decide_eq_true_eq] at hp
      refine ⟨hp.1, hp.2, ?_⟩
      intro j' h1 h2 hsp
      have hbound : j' < (List.range s.length).length := by omega
      have hthis := hprev j' h2
      rw [List.getElem_range j'] at hthis
      simp [h1, hsp] at hthis

/-- If `indexOfSpaceFrom s k = -1` there is no space at-or-after `k`. -/
theorem indexOfSpaceFrom_neg (s : Str) (k : Nat)
    (h : indexOfSpaceFrom s k = -1) : ∀ j, k ≤ j → s[j]? ≠ some ' ' := by
  intro j hjk hsp
  have hjlen : j < s.length := by
    by_contra hge
    rw [List.getElem?_eq_none (by omega)] at hsp
    exact Option.noConfusion hsp
  unfold indexOfSpaceFrom at h
  cases hfind : (List.range s.length).find?
      (fun j => decide (k ≤ j) && decide (s[j]? = some ' ')) with
  | none =>
      have hmem : j ∈ List.range s.length := by
        rw [List.mem_range]
        omega
      have := List.find?_eq_none.mp hfind j hmem
      simp [hjk, hsp] at this
  | some j0 =>
      rw [hfind] at h
      simp only [] at h
      omega

/-- Claim C1's reading of the tokenizer, formalized: on any input with at
least one bracket character, the output is the input split only on the
spaces outside the protected zone, every run of non-separator text (in
particular the zone's content) emitted as a single token with its start
offset. -/
def c1ClaimStatement : Prop :=
  ∀ s : Str, matchIndicesFrom 0 s ≠ [] →
    parseTokens 0 s
      = claimTokens (tokenBoundaries 0 s).1 (tokenBoundaries 0 s).2 s

/-- Counterexample to C1 at the input `"(a"`: the protected zone covers
the whole input, the claim demands the single token `"(a"` at offset 0,
but `parseTokens` emits nothing — the zone's content is dropped, not
emitted. -/
theorem c1_counterexample : ¬ c1ClaimStatement := by
  intro h
  have h2 := h ('(' :: ['a']) (by decide)
  exact absurd h2 (by decide)

/-- C1 as amended: the zone's boundaries are as the claim states them —
the left boundary is the last space at-or-before the first bracket
character (or `-1`, i.e. the document start, when there is none), the
right boundary is the first space at-or-after the last bracket character
(or the end of the string when there is none) — and characters strictly
inside the zone are never separators, but they are also never emitted:
tokenization equals plain space-splitting of the input with the zone's
interior blanked out, rather than emitting the zone as a single token. -/
theorem c1_zone_dropped_not_emitted :
    ∀ (s : Str) (f : Nat) (ms : List Nat), matchIndicesFrom 0 s = f :: ms →
      ((lastIndexOfSpace s f = -1 ∧ ∀ j ≤ f, s[j]? ≠ some ' ')
        ∨ (∃ j : Nat, (j : Int) = lastIndexOfSpace s f ∧ j ≤ f ∧ s[j]? = some ' '
            ∧ ∀ j', j < j' → j' ≤ f → s[j']? ≠ some ' '))
      ∧ ((indexOfSpaceFrom s (List.getLastD (f :: ms) f) = -1
            ∧ ∀ j, List.getLastD (f :: ms) f ≤ j → s[j]? ≠ some ' ')
        ∨ (∃ j : Nat, (j : Int) = indexOfSpaceFrom s (List.getLastD (f :: ms) f)
            ∧ List.getLastD (f :: ms) f ≤ j ∧ s[j]? = some ' '
            ∧ ∀ j', List.getLastD (f :: ms) f ≤ j' → j' < j → s[j']? ≠ some ' '))
      ∧ parseTokens 0 s
          = spaceTokens (maskZone (lastIndexOfSpace s f)
              (if indexOfSpaceFrom s (List.getLastD (f :: ms) f) = -1 then
                (s.length : Int)
               else indexOfSpaceFrom s (List.getLastD (f :: ms) f)) s) := by
  intro s f ms hm
  have hlbCases : lastIndexOfSpace s f = -1
      ∨ ∃ j : Nat, (j : Int) = lastIndexOfSpace s f := by
    unfold lastIndexOfSpace
    cases hfind : (List.range (f + 1)).reverse.find?
        (fun j => decide (s[j]? = some ' ')) with
    | none => exact Or.inl rfl
    | some j0 => exact Or.inr ⟨j0, rfl⟩
  have hrbCases : indexOfSpaceFrom s (List.getLastD (f :: ms) f) = -1
      ∨ ∃ j : Nat, (j : Int) = indexOfSpaceFrom s (List.getLastD (f :: ms) f) := by
    unfold indexOfSpaceFrom
    cases hfind : (List.range s.length).find?
        (fun j => decide (List.getLastD (f :: ms) f ≤ j)
          && decide (s[j]? = some ' ')) with
    | none => exact Or.inl rfl
    | some j0 => exact Or.inr ⟨j0, rfl⟩
  refine ⟨?_, ?_, ?_⟩
  · rcases hlbCases with h | ⟨j, hj⟩
    · exact Or.inl ⟨h, lastIndexOfSpace_neg s f h⟩
    · exact Or.inr ⟨j, hj, lastIndexOfSpace_maximal s f j hj⟩
  · rcases hrbCases with h | ⟨j, hj⟩
    · exact Or.inl ⟨h, indexOfSpaceFrom_neg s (List.getLastD (f :: ms) f) h⟩
    · exact Or.inr ⟨j, hj, indexOfSpaceFrom_minimal s (List.getLastD (f :: ms) f) j hj⟩
  · have hb : tokenBoundaries 0 s
        = (lastIndexOfSpace s f,
           if indexOfSpaceFrom s (List.getLastD (f :: ms) f) = -1 then (s.length : Int)
           else indexOfSpaceFrom s (List.getLastD (f :: ms) f)) := by
      unfold tokenBoundaries
      rw [hm]
    have h := parseTokens_eq_spaceTokens 0 s
    rw [hb] at h
    exact h

/-- Witness for C1 (amended) at the concrete input `"a (b c) d"`, whose
bracket matches are at indices 2 and 6. -/
theorem c1_zone_dropped_not_emitted_witness :
    ((lastIndexOfSpace "a (b c) d".toList 2 = -1
        ∧ ∀ j ≤ 2, "a (b c) d".toList[j]? ≠ some ' ')
      ∨ (∃ j : Nat, (j : Int) = lastIndexOfSpace "a (b c) d".toList 2 ∧ j ≤ 2
          ∧ "a (b c) d".toList[j]? = some ' '
          ∧ ∀ j', j < j' → j' ≤ 2 → "a (b c) d".toList[j']? ≠ some ' '))
    ∧ ((indexOfSpaceFrom "a (b c) d".toList (List.getLastD (2 :: [6]) 2) = -1
          ∧ ∀ j, List.getLastD (2 :: [6]) 2 ≤ j → "a (b c) d".toList[j]? ≠ some ' ')
      ∨ (∃ j : Nat,
          (j : Int) = indexOfSpaceFrom "a (b c) d".toList (List.getLastD (2 :: [6]) 2)
          ∧ List.getLastD (2 :: [6]) 2 ≤ j ∧ "a (b c) d".toList[j]? = some ' '
          ∧ ∀ j', List.getLastD (2 :: [6]) 2 ≤ j' → j' < j →
              "a (b c) d".toList[j']? ≠ some ' '))
    ∧ parseTokens 0 "a (b c) d".toList
        = spaceTokens (maskZone (lastIndexOfSpace "a (b c) d".toList 2)
            (if indexOfSpaceFrom "a (b c) d".toList (List.getLastD (2 :: [6]) 2) = -1 then
              (("a (b c) d".toList).length : Int)
             else indexOfSpaceFrom "a (b c) d".toList (List.getLastD (2 :: [6]) 2))
            "a (b c) d".toList) :=
  c1_zone_dropped_not_emitted "a (b c) d".toList 2 [6] (by decide)

/-- Popping empty node lists does nothing. -/
theorem runStack_empty_lists :
    ∀ (stack : List (List Node)) (st : PState), (∀ l ∈ stack, l = []) →
      runStack stack st = st := by
  intro stack
  induction stack with
  | nil =>
      intro st _
      rw [runStack]
  | cons l rest ih =>
      intro st h
      have hl : l = [] := h l (List.mem_cons_self _ _)
      subst hl
      rw [runStack]
      simp only [List.map_nil, List.reverse_nil, List.nil_append]
      exact ih st (fun l' hl' => h l' (List.mem_cons_of_mem _ hl'))

/-- For a forest of childless nodes, the traversal is exactly the
attribute processing of the roots in order. -/
theorem runStack_flat (nodes : List Node) (hc : ∀ n ∈ nodes, n.children = [])
    (st : PState) : runStack [nodes] st = processNodes nodes st := by
  rw [runStack]
  apply runStack_empty_lists
  intro l hl
  rcases List.mem_append.mp hl with h1 | h1
  · rw [List.mem_reverse] at h1
    obtain ⟨n, hn, rfl⟩ := List.mem_map.mp h1
    exact hc n hn
  · cases h1

/-- The document used by the C3/C5 counterexamples: a single childless
element whose attributes are extracted as given. -/
def flatNode (tag : Str) (attrs : List AttrRec) : Node := Node.mk tag attrs []

/-- Diagnostics of a parse of a single childless element, reduced to the
attribute loop. -/
theorem parseHTMLDocument_flat_diag (doc textDoc : TextDoc) (tag : Str)
    (attrs : List AttrRec) (lastIndex : Nat) :
    (parseHTMLDocument doc textDoc [flatNode tag attrs] lastIndex).1.diagnostics
      = (processNodes [flatNode tag attrs] (initPState lastIndex)).diagnostics := by
  unfold parseHTMLDocument
  rw [runStack_flat [flatNode tag attrs]
    (by intro n hn; rw [List.mem_singleton] at hn; subst hn; rfl) (initPState lastIndex)]

/-- Final regex state of a parse of a single childless element. -/
theorem parseHTMLDocument_flat_lastIndex (doc textDoc : TextDoc) (tag : Str)
    (attrs : List AttrRec) (lastIndex : Nat) :
    (parseHTMLDocument doc textDoc [flatNode tag attrs] lastIndex).2
      = (processNodes [flatNode tag attrs] (initPState lastIndex)).lastIndex := by
  unfold parseHTMLDocument
  rw [runStack_flat [flatNode tag attrs]
    (by intro n hn; rw [List.mem_singleton] at hn; subst hn; rfl) (initPState lastIndex)]

/-- Equality of parse outputs as claim C3 reads them: the six symbol
tables and the local diagnostics. -/
def parseOutputsEq (p q : ParsedDocument) : Prop :=
  p.event_definitions = q.event_definitions
    ∧ p.event_references = q.event_references
    ∧ p.state_definitions = q.state_definitions
    ∧ p.state_references = q.state_references
    ∧ p.result_definitions = q.result_definitions
    ∧ p.result_references = q.result_references
    ∧ p.diagnostics = q.diagnostics

/-- Claim C3, formalized: parsing is a pure function of the document
text — in particular, immediately re-parsing the same unchanged tree
(with whatever regex state the first parse left behind) yields the same
six symbol tables and the same local diagnostics. -/
def c3ClaimStatement : Prop :=
  ∀ (doc textDoc : TextDoc) (roots : List Node),
    parseOutputsEq
      (parseHTMLDocument doc textDoc roots
        ((parseHTMLDocument doc textDoc roots 0).2)).1
      (parseHTMLDocument doc textDoc roots 0).1

/-- The single-attribute document `<div position="(">` used to refute
C3. -/
def posParenAttr : AttrRec :=
  { name := "position".toList, value := "(".toList, range := rng0, fullRange := rng1 }

/-- Counterexample to C3: parsing `<div position="(">` once leaves
`INVALID_PATTERN.lastIndex = 1` (the `g`-flagged regex is mutated by
`test`), and re-parsing the identical text then emits an additional
`Invalid render position specified` error that the first parse did not
emit — parsing is not a pure function of the text. -/
theorem c3_counterexample : ¬ c3ClaimStatement := by
  intro h
  have h2 := (h emptyTextDoc emptyTextDoc [flatNode "div".toList [posParenAttr]]).2.2.2.2.2.2
  rw [parseHTMLDocument_flat_lastIndex, parseHTMLDocument_flat_diag,
    parseHTMLDocument_flat_diag] at h2
  exact absurd h2 (by decide)

/-- The diagnostic demanded by the invalid-position check. -/
def invalidPositionDiag (r : Rng) : Diag :=
  { range := r, message := Msg.invalidPosition, severity := Sev.error,
    source := some "KEML".toList, tags := none }

/-- Claim C5, formalized over single-element documents: an
`Invalid render position specified` error appears on a position
attribute's full range if and only if its value is not one of the
enumerated positions and contains no bracket character. -/
def c5ClaimStatement : Prop :=
  ∀ (doc textDoc : TextDoc) (tag : Str) (attrs : List AttrRec) (a : AttrRec),
    a ∈ attrs → isPosition a.name = true →
    (invalidPositionDiag a.fullRange
        ∈ (parseHTMLDocument doc textDoc [Node.mk tag attrs []] 0).1.diagnostics
      ↔ (validPosition.contains a.value = false
          ∧ ∀ c ∈ a.value, bracketChar c = false))

/-- The second position attribute of the C5 counterexample:
`x-position="(x"` — its value contains a bracket. -/
def posParenXAttr : AttrRec :=
  { name := "x-position".toList, value := "(x".toList, range := rng0, fullRange := rng2 }

/-- Counterexample to C5: in `<div position="(" x-position="(x">`, the
first attribute's `INVALID_PATTERN.test` succeeds and advances the
regex's `lastIndex` to 1, so the second attribute's test — searching
from index 1 — misses the bracket at index 0 of `"(x"` and the error is
emitted even though the value contains a bracket character. -/
theorem c5_counterexample : ¬ c5ClaimStatement := by
  intro h
  have h2 := h emptyTextDoc emptyTextDoc "div".toList [posParenAttr, posParenXAttr]
    posParenXAttr (by simp) (by decide)
  have hflat : (Node.mk "div".toList [posParenAttr, posParenXAttr] ([] : List Node))
      = flatNode "div".toList [posParenAttr, posParenXAttr] := rfl
  rw [hflat, parseHTMLDocument_flat_diag] at h2
  have hmem : invalidPositionDiag posParenXAttr.fullRange
      ∈ (processNodes [flatNode "div".toList [posParenAttr, posParenXAttr]]
          (initPState 0)).diagnostics := by decide
  exact absurd (h2.mp hmem) (by decide)

/-- Full output of a parse of a single childless element, reduced to the
attribute loop. -/
theorem parseHTMLDocument_flat_parsed (doc textDoc : TextDoc) (tag : Str)
    (attrs : List AttrRec) (lastIndex : Nat) :
    parseHTMLDocument doc textDoc [flatNode tag attrs] lastIndex
      = ({ doc := doc, textDoc := textDoc, htmlRoots := [flatNode tag attrs],
           event_definitions :=
             (processNodes [flatNode tag attrs] (initPState lastIndex)).event_definitions,
           event_references :=
             (processNodes [flatNode tag attrs] (initPState lastIndex)).event_references,
           state_definitions :=
             (processNodes [flatNode tag attrs] (initPState lastIndex)).state_definitions,
           state_references :=
             (processNodes [flatNode tag attrs] (initPState lastIndex)).state_references,
           result_definitions :=
             (processNodes [flatNode tag attrs] (initPState lastIndex)).result_definitions,
           result_references :=
             (processNodes [flatNode tag attrs] (initPState lastIndex)).result_references,
           diagnostics :=
             (processNodes [flatNode tag attrs] (initPState lastIndex)).diagnostics },
         (processNodes [flatNode tag attrs] (initPState lastIndex)).lastIndex) := by
  unfold parseHTMLDocument
  rw [runStack_flat [flatNode tag attrs]
    (by intro n hn; rw [List.mem_singleton] at hn; subst hn; rfl) (initPState lastIndex)]

example :
    (parseHTMLDocument emptyTextDoc emptyTextDoc
      [flatNode "button".toList
        [{ name := "on:click".toList, value := "save".toList,
           range := rng0, fullRange := rng1 }]] 0).1.event_definitions
      = [("save".toList, [tokenRange rng0 0 4])] := by
  rw [parseHTMLDocument_flat_parsed]
  decide

example :
    (parseHTMLDocument emptyTextDoc emptyTextDoc
      [flatNode "div".toList
        [{ name := "on".toList, value := "save".toList,
           range := rng0, fullRange := rng1 }]] 0).1.event_references
      = [("save".toList, [rng0])] := by
  rw [parseHTMLDocument_flat_parsed]
  decide

example :
    (parseHTMLDocument emptyTextDoc emptyTextDoc
      [flatNode "input".toList
        [{ name := "if:loading".toList, value := "busy".toList,
           range := rng0, fullRange := rng1 }]] 0).1.state_definitions
      = [("busy".toList, [tokenRange rng0 0 4])]
    ∧ (parseHTMLDocument emptyTextDoc emptyTextDoc
      [flatNode "input".toList
        [{ name := "if:loading".toList, value := "busy".toList,
           range := rng0, fullRange := rng1 }]] 0).1.diagnostics
      = [{ range := rng1,
           message := Msg.depends "if:loading".toList "on".toList "an".toList,
           severity := Sev.warning, source := some "KEML".toList,
           tags := some [Tag.unnecessary] }] := by
  rw [parseHTMLDocument_flat_parsed]
  exact ⟨by decide, by decide⟩

example :
    (parseHTMLDocument emptyTextDoc emptyTextDoc
      [flatNode "div".toList
        [{ name := "on".toList, value := [], range := rng0, fullRange := rng1 }]]
      0).1.diagnostics
      = [{ range := rng1, message := Msg.noAction, severity := Sev.warning,
           source := some "KEML".toList, tags := some [Tag.unnecessary] }] := by
  rw [parseHTMLDocument_flat_parsed]
  decide
